import Mathlib

/-!
Shallow embedding of the saifur-auction state machine
(src/services: auction service; src/utils/players.ts; src/types.ts).

The backing document store (Firestore) is modeled as one `AuctionState`:
the auction document plus the participants subcollection as an association
list from document id to participant data, in creation order.  Each exported
operation of the service is a Lean function on `AuctionState`; a
`runTransaction` that throws is an `Except.error` carrying the thrown message
(the transaction aborts atomically, so an error leaves the state unchanged).
Server timestamps (createdAt, updatedAt, joinedAt, startedAt, resolvedAt) are
metadata never read back by any operation and are omitted; `Date.now()` is an
explicit `now : Int` argument to the operations that call it.  JavaScript
string operations (trim, slice, toLowerCase) are modeled on the character
list of the string.
-/

/-- Model of JavaScript String.prototype.trim on the character list. -/
def jsTrim (s : String) : String :=
  ⟨((s.data.dropWhile Char.isWhitespace).reverse.dropWhile Char.isWhitespace).reverse⟩

/-- Model of JavaScript String.prototype.slice(0, n) on the character list. -/
def jsSlice (s : String) (n : Nat) : String :=
  ⟨s.data.take n⟩

/-- Model of JavaScript String.prototype.toLowerCase on the character list. -/
def jsLower (s : String) : String :=
  ⟨s.data.map Char.toLower⟩

/-- JavaScript truthiness of a string: every string except the empty one. -/
def jsTruthy (s : String) : Bool :=
  s ≠ ""

/-- Lifecycle status of an auction (types.ts, AuctionStatus). -/
inductive AuctionStatus
  | lobby
  | live
  | ended
  | ranking
  | results
deriving DecidableEq, Repr, Inhabited

/-- Role of a participant (types.ts, Participant.role). -/
inductive Role
  | admin
  | player
deriving DecidableEq, Repr, Inhabited

/-- Outcome recorded for a completed player (types.ts, CompletedPlayerEntry.result). -/
inductive SaleResult
  | sold
  | unsold
deriving DecidableEq, Repr, Inhabited

/-- Category configuration (types.ts, CategoryConfig). -/
structure CategoryConfig where
  id : String
  label : String
  basePrice : Int
  players : List String
deriving DecidableEq, Repr, Inhabited

/-- One biddable player slot (types.ts, PlayerSlot). -/
structure PlayerSlot where
  key : String
  name : String
  categoryLabel : String
  basePrice : Int
deriving DecidableEq, Repr, Inhabited

/-- The manual (relisted) slot installed by relistUnsoldPlayer: a PlayerSlot
plus the id of the ledger entry it came from. -/
structure ManualPlayer extends PlayerSlot where
  sourceId : String
deriving DecidableEq, Repr, Inhabited

/-- The current leading bid (types.ts, ActiveBid; startedAt omitted). -/
structure ActiveBid where
  amount : Int
  bidderId : String
  bidderName : String
deriving DecidableEq, Repr, Inhabited

/-- Ledger entry for a resolved player (types.ts, CompletedPlayerEntry;
resolvedAt omitted). -/
structure CompletedPlayerEntry where
  id : String
  playerName : String
  categoryLabel : String
  basePrice : Int
  result : SaleResult
  winnerId : Option String
  winnerName : Option String
  finalBid : Option Int
deriving DecidableEq, Repr, Inhabited

/-- One won player on a roster (types.ts, RosterEntry). -/
structure RosterEntry where
  playerName : String
  categoryLabel : String
  price : Int
deriving DecidableEq, Repr, Inhabited

/-- Modelled from the spec: TaggedRosterEntry, whose definition is not under
src/ (only its uses are).  The spec describes finalRoster as an optional
tagged and positioned reordering of entries of the roster; the operations
under verification only store the list and read its length. -/
structure TaggedRosterEntry extends RosterEntry where
  position : Option String
deriving DecidableEq, Repr, Inhabited

/-- One leaderboard row before rank assignment (the object built inside
finalizeResults prior to the rank-adding map). -/
structure ResultRow where
  participantId : String
  name : String
  points : Int
  rosterCount : Int
  budgetRemaining : Int
deriving DecidableEq, Repr, Inhabited

/-- One final leaderboard row (types.ts, Auction.results element). -/
structure ResultEntry extends ResultRow where
  rank : Int
deriving DecidableEq, Repr, Inhabited

/-- The auction document (types.ts, Auction; timestamps omitted). -/
structure Auction where
  name : String
  nameLower : String
  visibility : String
  password : String
  adminId : String
  adminName : String
  maxParticipants : Int
  participantCount : Int
  playersPerTeam : Int
  budgetPerPlayer : Int
  totalPlayers : Int
  categories : List CategoryConfig
  status : AuctionStatus
  currentPlayerIndex : Int
  countdownEndsAt : Option Int
  countdownDuration : Option Int
  activeBid : Option ActiveBid
  skipVotes : List String
  isPaused : Bool
  pausedRemainingMs : Option Int
  manualPlayer : Option ManualPlayer
  manualSourceId : Option String
  finalizationOpen : Bool
  completedPlayers : List CompletedPlayerEntry
  results : List ResultEntry
deriving DecidableEq, Repr, Inhabited

/-- A participant document (types.ts, Participant; joinedAt omitted;
rankings is a JavaScript object modeled as an association list in property
insertion order; the formation is the pair of code and label). -/
structure Participant where
  name : String
  role : Role
  budgetRemaining : Int
  playersNeeded : Int
  roster : List RosterEntry
  hasSubmittedTeam : Bool
  rankingSubmitted : Bool
  rankings : List (String × Int)
  finalRoster : Option (List TaggedRosterEntry)
  finalRosterSport : Option String
  finalRosterFormation : Option (String × String)
deriving DecidableEq, Repr, Inhabited

/-- The whole store for one auction: the auction document and the
participants subcollection (document id to data, in creation order). -/
structure AuctionState where
  auction : Auction
  participants : List (String × Participant)
deriving DecidableEq, Repr, Inhabited

/-- Read of a participant document by id. -/
def lookupP (ps : List (String × Participant)) (clientId : String) : Option Participant :=
  (ps.find? (fun p => p.1 == clientId)).map Prod.snd

/-- Write of a participant document by id (update in place). -/
def setP (ps : List (String × Participant)) (clientId : String) (v : Participant) :
    List (String × Participant) :=
  ps.map (fun p => if p.1 == clientId then (p.1, v) else p)

/-- Read of a JavaScript object property with a default. -/
def recordGetD (m : List (String × Int)) (k : String) (d : Int) : Int :=
  match m.find? (fun e => e.1 == k) with
  | some e => e.2
  | none => d

/-- Write of a JavaScript object property: an existing key keeps its
position and gets the new value, a new key is appended (property insertion
order; keys of a JavaScript object are unique). -/
def recordSet : List (String × Int) → String → Int → List (String × Int)
  | [], k, v => [(k, v)]
  | e :: t, k, v => if e.1 = k then (k, v) :: t else e :: recordSet t k v

/-- Sum of the prices on a roster. -/
def rosterSum (r : List RosterEntry) : Int :=
  (r.map (fun e => e.price)).sum

/-- Model of Array.from(new Set(votes).add(x)): deduplicate keeping first
occurrences, then append x if absent. -/
def jsSetAdd (votes : List String) (x : String) : List String :=
  let dedup := votes.foldl (fun acc v => if acc.contains v then acc else acc ++ [v]) []
  if dedup.contains x then dedup else dedup ++ [x]

/-- Fixed category order (utils/players.ts, CATEGORY_ORDER). -/
def CATEGORY_ORDER : List String := ["A", "B", "C", "D", "E"]

/-- Model of CATEGORY_ORDER.indexOf(label): index of the label, -1 if absent. -/
def labelIndex (l : String) : Int :=
  match CATEGORY_ORDER.indexOf? l with
  | some i => (i : Int)
  | none => -1

/-- Queue builder (utils/players.ts, buildPlayerQueue): stable-sort the
categories into label order, then flatten each category into slots keyed
by the category id and the index within the category. -/
def buildPlayerQueue (categories : List CategoryConfig) : List PlayerSlot :=
  if categories.isEmpty then []
  else
    let sorted := categories.mergeSort (fun a b => labelIndex a.label ≤ labelIndex b.label)
    sorted.flatMap (fun c =>
      c.players.enum.map (fun p =>
        { key := c.id ++ "-" ++ toString p.1
          name := p.2
          categoryLabel := c.label
          basePrice := c.basePrice }))

/-- Start-of-player countdown in milliseconds. -/
def START_TIMER_MS : Int := 60000

/-- After-bid countdown in milliseconds. -/
def ACTIVE_BID_TIMER_MS : Int := 15000

/-- JavaScript indexing queue[i] ?? null. -/
def jsIndex (queue : List PlayerSlot) (i : Int) : Option PlayerSlot :=
  if i < 0 then none else queue[i.toNat]?

/-- The currently active slot: the manual overlay when present, otherwise
the queue position (getActiveSlot). -/
def getActiveSlot (a : Auction) (queue : List PlayerSlot) : Option PlayerSlot × Bool :=
  match a.manualPlayer with
  | some mp => (some mp.toPlayerSlot, true)
  | none => (jsIndex queue a.currentPlayerIndex, false)

/-- Budget check used by the lock-resolution sweep (participantCanCoverBid). -/
def participantCanCoverBid (participant : Participant) (amount : Int) : Bool :=
  participant.budgetRemaining ≥ amount

/-- JavaScript a || b on strings: b when a is empty. -/
def jsOr (a b : String) : String :=
  if jsTruthy a then a else b

/-- Input of createAuction (CreateAuctionInput; CategoryInput has the same
fields as CategoryConfig). -/
structure CreateAuctionInput where
  auctionName : String
  adminName : String
  clientId : String
  maxParticipants : Int
  playersPerTeam : Int
  budgetPerPlayer : Int
  visibility : String
  password : String
  categories : List CategoryConfig
deriving DecidableEq, Repr, Inhabited

/-- Operation createAuction: validation, category normalization and the two
initial documents.  The store-global duplicate-name query is outside the
single-auction store modeled here and is omitted. -/
def createAuctionState (input : CreateAuctionInput) : Except String AuctionState :=
  let trimmedName := jsTrim input.auctionName
  if ¬jsTruthy trimmedName then .error "Auction name is required."
  else
    let normalizedCategories :=
      (input.categories.map (fun c =>
        { c with players := (c.players.map jsTrim).filter (fun p => jsTruthy p) })).filter
        (fun c => ¬c.players.isEmpty)
    if normalizedCategories.isEmpty then .error "Add at least one player to create an auction."
    else
      let totalPlayers :=
        normalizedCategories.foldl (fun acc c => acc + (c.players.length : Int)) 0
      .ok
        { auction :=
            { name := trimmedName
              nameLower := jsLower trimmedName
              visibility := input.visibility
              password := input.password
              adminId := input.clientId
              adminName := jsOr (jsTrim input.adminName) "Admin"
              maxParticipants := input.maxParticipants
              participantCount := 1
              playersPerTeam := input.playersPerTeam
              budgetPerPlayer := input.budgetPerPlayer
              totalPlayers := totalPlayers
              categories := normalizedCategories
              status := .lobby
              currentPlayerIndex := -1
              countdownEndsAt := none
              countdownDuration := some START_TIMER_MS
              activeBid := none
              skipVotes := []
              isPaused := false
              pausedRemainingMs := none
              manualPlayer := none
              manualSourceId := none
              finalizationOpen := false
              completedPlayers := []
              results := [] }
          participants :=
            [(input.clientId,
              { name := jsOr (jsSlice (jsTrim input.adminName) 10) "Admin"
                role := .admin
                budgetRemaining := input.budgetPerPlayer
                playersNeeded := input.playersPerTeam
                roster := []
                hasSubmittedTeam := false
                rankingSubmitted := false
                rankings := []
                finalRoster := none
                finalRosterSport := none
                finalRosterFormation := none })] }

/-- Operation joinAuction: password check, then idempotent rejoin (name
update only) or capacity-checked first join. -/
def joinAuction (st : AuctionState) (password clientId displayName : String) :
    Except String AuctionState :=
  let a := st.auction
  if a.password ≠ password then .error "Incorrect password."
  else
    let safeName := jsSlice (jsTrim displayName) 10
    match lookupP st.participants clientId with
    | none =>
      if a.participantCount ≥ a.maxParticipants then .error "Auction is full."
      else
        .ok
          { auction := { a with participantCount := a.participantCount + 1 }
            participants := st.participants ++
              [(clientId,
                { name := safeName
                  role := .player
                  budgetRemaining := a.budgetPerPlayer
                  playersNeeded := a.playersPerTeam
                  roster := []
                  hasSubmittedTeam := false
                  rankingSubmitted := false
                  rankings := []
                  finalRoster := none
                  finalRosterSport := none
                  finalRosterFormation := none })] }
    | some existing =>
      .ok
        { st with
            participants := setP st.participants clientId
              { existing with name := jsOr safeName existing.name } }

/-- Operation startAuction: lobby check, queue check, transition to live. -/
def startAuction (st : AuctionState) (now : Int) : Except String AuctionState :=
  let a := st.auction
  if a.status ≠ .lobby then .error "Auction already started."
  else
    let queue := buildPlayerQueue a.categories
    if queue.isEmpty then .error "No players to start the auction."
    else
      .ok
        { st with
            auction :=
              { a with
                  status := .live
                  currentPlayerIndex := 0
                  countdownEndsAt := some (now + START_TIMER_MS)
                  countdownDuration := some START_TIMER_MS
                  activeBid := none
                  skipVotes := []
                  isPaused := false
                  pausedRemainingMs := none
                  manualPlayer := none
                  manualSourceId := none
                  finalizationOpen := false } }

/-- The transaction inside placeBid (the lock-resolution sweep afterwards is
composed in placeBid below); minimumBidOf is the minimum-bid computation
of the transaction, named so theorems can refer to it. -/
def minimumBidOf (a : Auction) (currentPlayer : PlayerSlot) : Int :=
  max currentPlayer.basePrice
    (match a.activeBid with
     | some b => b.amount + 1
     | none => currentPlayer.basePrice)

def placeBidTrx (st : AuctionState) (clientId bidderName : String) (amount now : Int) :
    Except String AuctionState :=
  let a := st.auction
  if a.status ≠ .live then .error "Auction is not live."
  else if a.isPaused then .error "Auction is paused."
  else
    let queue := buildPlayerQueue a.categories
    match (getActiveSlot a queue).1 with
    | none => .error "No active player."
    | some currentPlayer =>
      match lookupP st.participants clientId with
      | none => .error "Participant missing."
      | some participant =>
        let minimumBid := minimumBidOf a currentPlayer
        if amount < minimumBid then
          .error ("Bid must be at least " ++ toString minimumBid ++ ".")
        else if amount > participant.budgetRemaining then
          .error "Bid exceeds your remaining budget."
        else
          .ok
            { st with
                auction :=
                  { a with
                      activeBid := some
                        { amount := amount, bidderId := clientId, bidderName := bidderName }
                      countdownEndsAt := some (now + ACTIVE_BID_TIMER_MS)
                      countdownDuration := some ACTIVE_BID_TIMER_MS
                      skipVotes := [] } }

/-- The next-slot updates for a normal queue slot (resolveNextPlayer).  The
source returns an updates object; here the updates are applied to the
auction, and the caller adds completedPlayers. -/
def resolveNextPlayer (a : Auction) (queue : List PlayerSlot) (now : Int) : Auction :=
  let nextIndex := a.currentPlayerIndex + 1
  let hasNext := nextIndex < (queue.length : Int)
  if ¬hasNext then
    { a with
        status := .ended
        currentPlayerIndex := nextIndex
        countdownEndsAt := none
        countdownDuration := none
        activeBid := none
        skipVotes := []
        isPaused := false
        pausedRemainingMs := none
        finalizationOpen := false }
  else
    { a with
        currentPlayerIndex := nextIndex
        countdownEndsAt := some (now + START_TIMER_MS)
        countdownDuration := some START_TIMER_MS
        activeBid := none
        skipVotes := []
        isPaused := false
        pausedRemainingMs := none }

/-- The initial (unsold) ledger entry built by finalizeCurrentPlayer for
the resolved slot. -/
def unsoldEntryOf (currentPlayer : PlayerSlot) : CompletedPlayerEntry :=
  { id := currentPlayer.key
    playerName := currentPlayer.name
    categoryLabel := currentPlayer.categoryLabel
    basePrice := currentPlayer.basePrice
    result := .unsold
    winnerId := none
    winnerName := none
    finalBid := none }

/-- The sale branch of finalizeCurrentPlayer: when an active bid exists and
forceUnsold is false, look up the winner (raising when the document is
gone), debit the budget, extend the roster, decrement playersNeeded with a
floor of zero, and produce the sold ledger entry; otherwise keep the unsold
entry and the participants untouched. -/
def sellOutcome (st : AuctionState) (currentPlayer : PlayerSlot) (forceUnsold : Bool) :
    Except String (CompletedPlayerEntry × List (String × Participant)) :=
  match st.auction.activeBid, forceUnsold with
  | some activeBid, false =>
    match lookupP st.participants activeBid.bidderId with
    | none => .error "Winning bidder left the lobby."
    | some participant =>
      let updatedRoster := participant.roster ++
        [{ playerName := currentPlayer.name
           categoryLabel := currentPlayer.categoryLabel
           price := activeBid.amount }]
      .ok
        ({ unsoldEntryOf currentPlayer with
             result := .sold
             winnerId := some activeBid.bidderId
             winnerName := some activeBid.bidderName
             finalBid := some activeBid.amount },
         setP st.participants activeBid.bidderId
           { participant with
               roster := updatedRoster
               budgetRemaining := participant.budgetRemaining - activeBid.amount
               playersNeeded := max (participant.playersNeeded - 1) 0 })
  | _, _ => .ok (unsoldEntryOf currentPlayer, st.participants)

/-- The ledger update of finalizeCurrentPlayer: overwrite the manual-source
entry in place on a manual slot (manualSourceId being a truthy string),
append otherwise. -/
def finalizeHistory (a : Auction) (isManual : Bool) (completedEntry : CompletedPlayerEntry) :
    List CompletedPlayerEntry :=
  let manualTruthy :=
    match a.manualSourceId with
    | some s => jsTruthy s
    | none => false
  if isManual && manualTruthy then
    a.completedPlayers.map (fun entry =>
      if some entry.id = a.manualSourceId then { completedEntry with id := entry.id }
      else entry)
  else a.completedPlayers ++ [completedEntry]

/-- The ended-with-cleared-state document written by finalizeCurrentPlayer
when no active slot exists. -/
def endedClearedDoc (a : Auction) : Auction :=
  { a with
      status := .ended
      countdownEndsAt := none
      countdownDuration := none
      activeBid := none
      skipVotes := []
      finalizationOpen := false }

/-- The auction-document updates of finalizeCurrentPlayer after the sale is
settled: clear the manual overlay without moving the queue pointer on a
manual slot (ending when the queue is already complete), advance through
resolveNextPlayer otherwise. -/
def finalizeAuctionDoc (a : Auction) (queue : List PlayerSlot) (isManual : Bool)
    (history : List CompletedPlayerEntry) (now : Int) : Auction :=
  let queueComplete := a.currentPlayerIndex ≥ (queue.length : Int) - 1
  if isManual then
    { a with
        completedPlayers := history
        manualPlayer := none
        manualSourceId := none
        countdownEndsAt := none
        countdownDuration := none
        activeBid := none
        skipVotes := []
        isPaused := false
        pausedRemainingMs := none
        status := if queueComplete then .ended else a.status
        finalizationOpen := if queueComplete then false else a.finalizationOpen }
  else { resolveNextPlayer a queue now with completedPlayers := history }

/-- Operation finalizeCurrentPlayer: the core resolution transaction.  A
silent no-op unless live; resolves the active slot, credits the winner when
selling, updates or appends the ledger, then advances or ends. -/
def finalizeCurrentPlayer (st : AuctionState) (forceUnsold : Bool) (now : Int) :
    Except String AuctionState :=
  let a := st.auction
  if a.status ≠ .live then .ok st
  else
    let queue := buildPlayerQueue a.categories
    let slot := getActiveSlot a queue
    match slot.1 with
    | none => .ok { st with auction := endedClearedDoc a }
    | some currentPlayer =>
      match sellOutcome st currentPlayer forceUnsold with
      | .error e => .error e
      | .ok r =>
        .ok
          { auction := finalizeAuctionDoc a queue slot.2 (finalizeHistory a slot.2 r.1) now
            participants := r.2 }

/-- The lock-resolution sweep (maybeResolveLockedAuction): outside any
transaction, finalize immediately when no participant other than the leader
can still afford the minimum next bid. -/
def maybeResolveLockedAuction (st : AuctionState) (now : Int) : Except String AuctionState :=
  let a := st.auction
  match a.activeBid with
  | none => .ok st
  | some activeBid =>
    if a.status ≠ .live ∨ a.isPaused then .ok st
    else
      let queue := buildPlayerQueue a.categories
      match (getActiveSlot a queue).1 with
      | none => .ok st
      | some currentPlayer =>
        let minimumBid := max currentPlayer.basePrice (activeBid.amount + 1)
        let contenders := st.participants.any (fun p =>
          p.1 ≠ activeBid.bidderId ∧ participantCanCoverBid p.2 minimumBid)
        if contenders then .ok st
        else finalizeCurrentPlayer st false now

/-- Operation placeBid: the bid transaction followed by the sweep. -/
def placeBid (st : AuctionState) (clientId bidderName : String) (amount now : Int) :
    Except String AuctionState := do
  let st2 ← placeBidTrx st clientId bidderName amount now
  maybeResolveLockedAuction st2 now

/-- The transaction inside skipPlayer: record the vote and decide whether to
resolve; returns the written state, the resolve flag and forceUnsold. -/
def skipTrx (st : AuctionState) (clientId : String) : AuctionState × Bool × Bool :=
  let a := st.auction
  if a.status ≠ .live ∨ a.isPaused then (st, false, false)
  else
    let skipVotes := jsSetAdd a.skipVotes clientId
    let st2 := { st with auction := { a with skipVotes := skipVotes } }
    match a.activeBid with
    | some activeBid =>
      let passes := (skipVotes.filter (fun id => id ≠ activeBid.bidderId)).length
      let required := max (a.participantCount - 1) 1
      (st2, (passes : Int) ≥ required, false)
    | none => (st2, (skipVotes.length : Int) ≥ a.participantCount, true)

/-- Operation skipPlayer: the vote transaction, then finalize on quorum or
the sweep otherwise. -/
def skipPlayer (st : AuctionState) (clientId : String) (now : Int) :
    Except String AuctionState :=
  let r := skipTrx st clientId
  if r.2.1 then finalizeCurrentPlayer r.1 r.2.2 now
  else maybeResolveLockedAuction r.1 now

/-- Operation pauseAuction: capture the remaining countdown and freeze. -/
def pauseAuction (st : AuctionState) (now : Int) : AuctionState :=
  let a := st.auction
  if a.status ≠ .live ∨ a.isPaused then st
  else
    let remaining :=
      match a.countdownEndsAt with
      | some t => max (t - now) 0
      | none => a.countdownDuration.getD START_TIMER_MS
    { st with
        auction :=
          { a with
              isPaused := true
              pausedRemainingMs := some remaining
              countdownEndsAt := none } }

/-- Operation resumeAuction: restore the frozen countdown. -/
def resumeAuction (st : AuctionState) (now : Int) : AuctionState :=
  let a := st.auction
  if a.status ≠ .live ∨ ¬a.isPaused then st
  else
    let ms := a.pausedRemainingMs.getD (a.countdownDuration.getD START_TIMER_MS)
    { st with
        auction :=
          { a with
              isPaused := false
              pausedRemainingMs := none
              countdownEndsAt := some (now + ms)
              countdownDuration := some ms } }

/-- Operation submitTeam: record the curated final roster on the participant
document (updateDoc fails when the document is missing). -/
def submitTeam (st : AuctionState) (clientId : String) (finalRoster : List TaggedRosterEntry)
    (sport : String) (formationCode formationLabel : Option String) :
    Except String AuctionState :=
  match lookupP st.participants clientId with
  | none => .error "No document to update."
  | some p =>
    .ok
      { st with
          participants := setP st.participants clientId
            { p with
                hasSubmittedTeam := true
                finalRoster := some finalRoster
                finalRosterSport := some sport
                finalRosterFormation :=
                  if sport = "soccer" then
                    some (formationCode.getD "custom",
                      formationLabel.getD (formationCode.getD "Custom formation"))
                  else none } }

/-- Operation openFinalizationPhase: gate, valid only once ended. -/
def openFinalizationPhase (st : AuctionState) : Except String AuctionState :=
  let a := st.auction
  if a.status ≠ .ended then .error "Finish the auction before opening final teams."
  else if a.finalizationOpen then .ok st
  else .ok { st with auction := { a with finalizationOpen := true } }

/-- Operation relistUnsoldPlayer: install an unsold ledger entry as the
manual slot and go live with a fresh countdown. -/
def relistUnsoldPlayer (st : AuctionState) (completedPlayerId : String) (now : Int) :
    Except String AuctionState :=
  let a := st.auction
  match a.completedPlayers.find? (fun p => p.id == completedPlayerId) with
  | none => .error "Player not available for re-auction."
  | some entry =>
    if entry.result ≠ .unsold then .error "Player not available for re-auction."
    else
      .ok
        { st with
            auction :=
              { a with
                  status := .live
                  manualPlayer := some
                    { key := "manual-" ++ entry.id ++ "-" ++ toString now
                      name := entry.playerName
                      categoryLabel := entry.categoryLabel
                      basePrice := entry.basePrice
                      sourceId := entry.id }
                  manualSourceId := some entry.id
                  countdownEndsAt := some (now + START_TIMER_MS)
                  countdownDuration := some START_TIMER_MS
                  activeBid := none
                  skipVotes := []
                  isPaused := false
                  pausedRemainingMs := none } }

/-- The points map written by submitRanking for a given participant count. -/
def buildRankings (totalPlayers : Int) (rankingOrder : List String) : List (String × Int) :=
  let maxPoints := max (totalPlayers - 1) 1
  rankingOrder.enum.foldl (fun m p => recordSet m p.2 (max (maxPoints - (p.1 : Int)) 1)) []

/-- Operation submitRanking: convert the ordered ranking into a points map
and store it on the submitter (transaction update fails when the submitter
document is missing; no status precondition). -/
def submitRanking (st : AuctionState) (clientId : String) (rankingOrder : List String) :
    Except String AuctionState :=
  let totalPlayers := st.auction.participantCount
  let rankings := buildRankings totalPlayers rankingOrder
  match lookupP st.participants clientId with
  | none => .error "No document to update."
  | some p =>
    .ok
      { st with
          participants := setP st.participants clientId
            { p with rankings := rankings, rankingSubmitted := true } }

/-- The score board of finalizeResults: fold every stored rankings map into
a running per-target total. -/
def buildScoreBoard (ps : List (String × Participant)) : List (String × Int) :=
  ps.foldl
    (fun sb p =>
      p.2.rankings.foldl (fun sb2 e => recordSet sb2 e.1 (recordGetD sb2 e.1 0 + e.2)) sb)
    []

/-- Operation finalizeResults: a no-op unless ranking; sums received points,
sorts descending (stable) and assigns 1-based ranks. -/
def finalizeResults (st : AuctionState) : AuctionState :=
  let a := st.auction
  if a.status ≠ .ranking then st
  else
    let scoreBoard := buildScoreBoard st.participants
    let rows : List ResultRow := st.participants.map (fun p =>
      { participantId := p.1
        name := p.2.name
        points := recordGetD scoreBoard p.1 0
        rosterCount :=
          match p.2.finalRoster with
          | some fr => (fr.length : Int)
          | none => (p.2.roster.length : Int)
        budgetRemaining := p.2.budgetRemaining })
    let sortedRows := rows.mergeSort (fun x y => x.points ≥ y.points)
    let results := sortedRows.enum.map (fun p => { toResultRow := p.2, rank := (p.1 : Int) + 1 })
    { st with auction := { a with status := .results, results := results } }

/-- Operation markAuctionAsRanking: an unconditional status write (the
source has no status precondition). -/
def markAuctionAsRanking (st : AuctionState) : AuctionState :=
  { st with auction := { st.auction with status := .ranking, finalizationOpen := false } }

/-- One committed store mutation: the success case of any transaction (or
plain write) of the service.  The composite operations placeBid and
skipPlayer decompose into these transactions, so every store state ever
committed is along this relation. -/
inductive Step : AuctionState → AuctionState → Prop where
  | join {s s2 : AuctionState} (pw cid dn : String) :
      joinAuction s pw cid dn = .ok s2 → Step s s2
  | start {s s2 : AuctionState} (now : Int) :
      startAuction s now = .ok s2 → Step s s2
  | bid {s s2 : AuctionState} (cid bn : String) (amount now : Int) :
      placeBidTrx s cid bn amount now = .ok s2 → Step s s2
  | skipVote {s s2 : AuctionState} (cid : String) :
      (skipTrx s cid).1 = s2 → Step s s2
  | finalize {s s2 : AuctionState} (forceUnsold : Bool) (now : Int) :
      finalizeCurrentPlayer s forceUnsold now = .ok s2 → Step s s2
  | pause {s s2 : AuctionState} (now : Int) :
      pauseAuction s now = s2 → Step s s2
  | resume {s s2 : AuctionState} (now : Int) :
      resumeAuction s now = s2 → Step s s2
  | team {s s2 : AuctionState} (cid : String) (fr : List TaggedRosterEntry)
      (sport : String) (fc fl : Option String) :
      submitTeam s cid fr sport fc fl = .ok s2 → Step s s2
  | openFin {s s2 : AuctionState} :
      openFinalizationPhase s = .ok s2 → Step s s2
  | relist {s s2 : AuctionState} (pid : String) (now : Int) :
      relistUnsoldPlayer s pid now = .ok s2 → Step s s2
  | ranking {s s2 : AuctionState} (cid : String) (ord : List String) :
      submitRanking s cid ord = .ok s2 → Step s s2
  | finResults {s s2 : AuctionState} :
      finalizeResults s = s2 → Step s s2
  | markRanking {s s2 : AuctionState} :
      markAuctionAsRanking s = s2 → Step s s2

/-- States reachable from a freshly created auction through committed
transactions. -/
inductive Reachable : AuctionState → Prop where
  | init {s : AuctionState} (input : CreateAuctionInput) :
      createAuctionState input = .ok s → Reachable s
  | step {s s2 : AuctionState} : Reachable s → Step s s2 → Reachable s2

/-- Budget conservation: every participant document satisfies
budgetRemaining = budgetPerPlayer - sum of roster prices. -/
def BudgetInvariant (s : AuctionState) : Prop :=
  ∀ p ∈ s.participants, p.2.budgetRemaining = s.auction.budgetPerPlayer - rosterSum p.2.roster

/-! Helper lemmas about the store primitives. -/

theorem lookupP_nil (k : String) : lookupP [] k = none := rfl

theorem lookupP_cons (a : String × Participant) (t : List (String × Participant)) (k : String) :
    lookupP (a :: t) k = if a.1 = k then some a.2 else lookupP t k := by
  by_cases h : a.1 = k
  · simp [lookupP, List.find?_cons_of_pos, h]
  · have hb : (a.1 == k) = false := by simp [h]
    simp [lookupP, List.find?_cons_of_neg, hb, h]

theorem setP_nil (k : String) (v : Participant) : setP [] k v = [] := rfl

theorem setP_cons (a : String × Participant) (t : List (String × Participant)) (k : String)
    (v : Participant) :
    setP (a :: t) k v = (if a.1 = k then (a.1, v) else a) :: setP t k v := by
  by_cases h : a.1 = k <;> simp [setP, h]

theorem lookupP_mem {ps : List (String × Participant)} {k : String} {p : Participant}
    (h : lookupP ps k = some p) : (k, p) ∈ ps := by
  induction ps with
  | nil => simp [lookupP_nil] at h
  | cons a t ih =>
    rw [lookupP_cons] at h
    by_cases ha : a.1 = k
    · simp [ha] at h
      exact List.mem_cons.mpr (Or.inl (by rw [← ha, ← h]))
    · simp [ha] at h
      exact List.mem_cons_of_mem a (ih h)

theorem lookupP_setP_self {ps : List (String × Participant)} {k : String} {p : Participant}
    (v : Participant) (h : lookupP ps k = some p) :
    lookupP (setP ps k v) k = some v := by
  induction ps with
  | nil => simp [lookupP_nil] at h
  | cons a t ih =>
    rw [lookupP_cons] at h
    rw [setP_cons]
    by_cases ha : a.1 = k
    · simp [ha, lookupP_cons]
    · simp [ha] at h
      simp [ha, lookupP_cons]
      exact ih h

theorem lookupP_setP_ne {ps : List (String × Participant)} (k : String) (v : Participant)
    {k2 : String} (h : k2 ≠ k) :
    lookupP (setP ps k v) k2 = lookupP ps k2 := by
  induction ps with
  | nil => simp [setP_nil]
  | cons a t ih =>
    rw [setP_cons]
    by_cases ha : a.1 = k
    · have hne : ¬a.1 = k2 := by
        rw [ha]
        exact fun hh => h hh.symm
      rw [if_pos ha, lookupP_cons, lookupP_cons, if_neg hne, if_neg hne]
      exact ih
    · rw [if_neg ha, lookupP_cons, lookupP_cons]
      by_cases hb : a.1 = k2
      · rw [if_pos hb, if_pos hb]
      · rw [if_neg hb, if_neg hb]
        exact ih

theorem mem_setP {ps : List (String × Participant)} {k : String} {v : Participant}
    {x : String × Participant} (h : x ∈ setP ps k v) : x ∈ ps ∨ x.2 = v := by
  unfold setP at h
  rcases List.mem_map.mp h with ⟨y, hy, hxy⟩
  by_cases hk : y.1 == k
  · rw [if_pos hk] at hxy
    right
    rw [← hxy]
  · rw [if_neg hk] at hxy
    left
    rw [← hxy]
    exact hy

theorem rosterSum_nil : rosterSum [] = 0 := rfl

theorem rosterSum_append (r : List RosterEntry) (e : RosterEntry) :
    rosterSum (r ++ [e]) = rosterSum r + e.price := by
  simp [rosterSum]

unseal List.merge List.mergeSort

/-! Concrete sample fixtures used by the closed witness theorems. -/

/-- A small live auction document with one category of one player. -/
def sampleAuction : Auction :=
  { name := "cup"
    nameLower := "cup"
    visibility := "public"
    password := "pw"
    adminId := "p1"
    adminName := "P1"
    maxParticipants := 2
    participantCount := 2
    playersPerTeam := 1
    budgetPerPlayer := 100
    totalPlayers := 1
    categories := [{ id := "c1", label := "A", basePrice := 10, players := ["X"] }]
    status := .live
    currentPlayerIndex := 0
    countdownEndsAt := none
    countdownDuration := some 60000
    activeBid := none
    skipVotes := []
    isPaused := false
    pausedRemainingMs := none
    manualPlayer := none
    manualSourceId := none
    finalizationOpen := false
    completedPlayers := []
    results := [] }

/-- A fresh participant document. -/
def sampleParticipant : Participant :=
  { name := "P1"
    role := .admin
    budgetRemaining := 100
    playersNeeded := 1
    roster := []
    hasSubmittedTeam := false
    rankingSubmitted := false
    rankings := []
    finalRoster := none
    finalRosterSport := none
    finalRosterFormation := none }

/-- C7 state: live, active bid from a bidder whose document is gone. -/
def c7State : AuctionState :=
  { auction := { sampleAuction with activeBid := some ⟨15, "ghost", "G"⟩ }
    participants := [("p1", sampleParticipant)] }

/-- C7: with an active bid, forceUnsold false, and the winning bidder
document missing, finalizeCurrentPlayer raises (the transaction aborts, so
in the Except model no state is produced: the ledger, the participants and
currentPlayerIndex are untouched). -/
theorem c7_finalize_vanished_winner (s : AuctionState) (now : Int) (b : ActiveBid)
    (slot : PlayerSlot) (m : Bool)
    (hlive : s.auction.status = .live)
    (hslot : getActiveSlot s.auction (buildPlayerQueue s.auction.categories) = (some slot, m))
    (hbid : s.auction.activeBid = some b)
    (hmissing : lookupP s.participants b.bidderId = none) :
    finalizeCurrentPlayer s false now = .error "Winning bidder left the lobby." := by
  simp only [finalizeCurrentPlayer, sellOutcome, hlive, hslot, hbid, hmissing]
  simp

/-- C7 witness: the vanished-winner theorem at the concrete state. -/
theorem c7_witness :
    finalizeCurrentPlayer c7State false 0 = .error "Winning bidder left the lobby." :=
  c7_finalize_vanished_winner c7State 0 ⟨15, "ghost", "G"⟩
    { key := "c1-0", name := "X", categoryLabel := "A", basePrice := 10 } false
    (by decide) (by decide) (by decide) (by decide)

/-- C9 fixture: a full two-seat lobby auction. -/
def c9State : AuctionState :=
  { auction := { sampleAuction with status := .lobby }
    participants := [("p1", sampleParticipant),
      ("p2", { sampleParticipant with name := "P2", role := .player })] }

/-- C9: a brand-new clientId is rejected with the full-auction error when
participantCount has reached maxParticipants; an already-registered clientId
succeeds regardless of capacity, the auction document (participantCount
included) is unchanged, the participant keeps every field except the display
name, and every other participant document is untouched. -/
theorem c9_join_capacity_rejoin (st : AuctionState) (pw cid dn : String) :
    (lookupP st.participants cid = none →
      st.auction.password = pw →
      st.auction.participantCount >= st.auction.maxParticipants →
      joinAuction st pw cid dn = .error "Auction is full.")
    ∧ (∀ p, lookupP st.participants cid = some p →
        st.auction.password = pw →
        ∃ st2, joinAuction st pw cid dn = .ok st2
          ∧ st2.auction = st.auction
          ∧ lookupP st2.participants cid =
              some { p with name := jsOr (jsSlice (jsTrim dn) 10) p.name }
          ∧ (∀ k2, k2 ≠ cid → lookupP st2.participants k2 = lookupP st.participants k2)) := by
  constructor
  · intro hnone hpw hfull
    simp only [joinAuction, hpw, hnone]
    simp [hfull]
  · intro p hsome hpw
    have hok : joinAuction st pw cid dn = .ok
        { st with
            participants :=
              setP st.participants cid ({ p with name := jsOr (jsSlice (jsTrim dn) 10) p.name }) } := by
      simp only [joinAuction, hsome]
      rw [if_neg (by rw [hpw]; simp)]
    refine ⟨_, hok, rfl, ?_, ?_⟩
    · exact lookupP_setP_self _ hsome
    · intro k2 hk2
      exact lookupP_setP_ne cid _ hk2

/-- C9 witness: both branches at the concrete full two-seat auction. -/
theorem c9_witness :
    joinAuction c9State "pw" "p3" "Nina" = .error "Auction is full."
    ∧ ∃ st2, joinAuction c9State "pw" "p1" "Nina" = .ok st2
        ∧ st2.auction = c9State.auction
        ∧ lookupP st2.participants "p1" = some { sampleParticipant with name := "Nina" }
        ∧ (∀ k2, k2 ≠ "p1" →
            lookupP st2.participants k2 = lookupP c9State.participants k2) := by
  constructor
  · exact (c9_join_capacity_rejoin c9State "pw" "p3" "Nina").1 (by decide) (by decide) (by decide)
  · rcases (c9_join_capacity_rejoin c9State "pw" "p1" "Nina").2 sampleParticipant
      (by decide) (by decide) with ⟨st2, h1, h2, h3, h4⟩
    exact ⟨st2, h1, h2, by rw [h3]; decide, h4⟩

/-! Characterization lemmas: the exact successful result of each operation. -/

theorem startAuction_ok {s s2 : AuctionState} {now : Int}
    (h : startAuction s now = .ok s2) :
    s.auction.status = .lobby ∧
    s2 = { s with
      auction := { s.auction with
        status := .live
        currentPlayerIndex := 0
        countdownEndsAt := some (now + START_TIMER_MS)
        countdownDuration := some START_TIMER_MS
        activeBid := none
        skipVotes := []
        isPaused := false
        pausedRemainingMs := none
        manualPlayer := none
        manualSourceId := none
        finalizationOpen := false } } := by
  simp only [startAuction] at h
  split at h
  · exact absurd h (by simp)
  · next hc =>
    split at h
    · exact absurd h (by simp)
    · injection h with h
      exact ⟨not_not.mp hc, h.symm⟩

theorem placeBidTrx_ok {s s2 : AuctionState} {cid bn : String} {amount now : Int}
    (h : placeBidTrx s cid bn amount now = .ok s2) :
    s.auction.status = .live ∧ s.auction.isPaused = false ∧
    ∃ slot participant,
      (getActiveSlot s.auction (buildPlayerQueue s.auction.categories)).1 = some slot
      ∧ lookupP s.participants cid = some participant
      ∧ minimumBidOf s.auction slot ≤ amount
      ∧ amount ≤ participant.budgetRemaining
      ∧ s2 = { s with
          auction := { s.auction with
            activeBid := some ⟨amount, cid, bn⟩
            countdownEndsAt := some (now + ACTIVE_BID_TIMER_MS)
            countdownDuration := some ACTIVE_BID_TIMER_MS
            skipVotes := [] } } := by
  simp only [placeBidTrx] at h
  split at h
  · exact absurd h (by simp)
  · next hlive =>
    split at h
    · exact absurd h (by simp)
    · next hpause =>
      split at h
      · exact absurd h (by simp)
      · next slot hslot =>
        split at h
        · exact absurd h (by simp)
        · next participant hpart =>
          split at h
          · exact absurd h (by simp)
          · next hmin =>
            split at h
            · exact absurd h (by simp)
            · next hbudget =>
              injection h with h
              exact ⟨not_not.mp hlive, by simpa using hpause, slot, participant, hslot,
                hpart, by omega, by omega, h.symm⟩

theorem createAuctionState_ok {input : CreateAuctionInput} {s : AuctionState}
    (h : createAuctionState input = .ok s) :
    s.auction.status = .lobby
    ∧ s.auction.budgetPerPlayer = input.budgetPerPlayer
    ∧ s.participants =
        [(input.clientId,
          { name := jsOr (jsSlice (jsTrim input.adminName) 10) "Admin"
            role := .admin
            budgetRemaining := input.budgetPerPlayer
            playersNeeded := input.playersPerTeam
            roster := []
            hasSubmittedTeam := false
            rankingSubmitted := false
            rankings := []
            finalRoster := none
            finalRosterSport := none
            finalRosterFormation := none })] := by
  simp only [createAuctionState] at h
  split at h
  · exact absurd h (by simp)
  · split at h
    · exact absurd h (by simp)
    · injection h with h
      rw [← h]
      exact ⟨rfl, rfl, rfl⟩

theorem joinAuction_ok {s s2 : AuctionState} {pw cid dn : String}
    (h : joinAuction s pw cid dn = .ok s2) :
    (∃ p, lookupP s.participants cid = some p ∧
      s2 = { s with
        participants :=
          setP s.participants cid ({ p with name := jsOr (jsSlice (jsTrim dn) 10) p.name }) })
    ∨ (lookupP s.participants cid = none
        ∧ s2.auction = { s.auction with participantCount := s.auction.participantCount + 1 }
        ∧ s2.participants = s.participants ++
            [(cid,
              { name := jsSlice (jsTrim dn) 10
                role := .player
                budgetRemaining := s.auction.budgetPerPlayer
                playersNeeded := s.auction.playersPerTeam
                roster := []
                hasSubmittedTeam := false
                rankingSubmitted := false
                rankings := []
                finalRoster := none
                finalRosterSport := none
                finalRosterFormation := none })]) := by
  simp only [joinAuction] at h
  split at h
  · exact absurd h (by simp)
  · split at h
    · next hnone =>
      split at h
      · exact absurd h (by simp)
      · injection h with h
        exact Or.inr ⟨hnone, by rw [← h], by rw [← h]⟩
    · next p hsome =>
      injection h with h
      exact Or.inl ⟨p, hsome, h.symm⟩

theorem skipTrx_fields (s : AuctionState) (cid : String) :
    (skipTrx s cid).1.participants = s.participants
    ∧ (skipTrx s cid).1.auction.activeBid = s.auction.activeBid
    ∧ (skipTrx s cid).1.auction.status = s.auction.status
    ∧ (skipTrx s cid).1.auction.isPaused = s.auction.isPaused
    ∧ (skipTrx s cid).1.auction.budgetPerPlayer = s.auction.budgetPerPlayer
    ∧ (skipTrx s cid).1.auction.currentPlayerIndex = s.auction.currentPlayerIndex
    ∧ (skipTrx s cid).1.auction.manualPlayer = s.auction.manualPlayer := by
  simp only [skipTrx]
  split
  · exact ⟨rfl, rfl, rfl, rfl, rfl, rfl, rfl⟩
  · split <;> exact ⟨rfl, rfl, rfl, rfl, rfl, rfl, rfl⟩

theorem pauseAuction_fields (s : AuctionState) (now : Int) :
    (pauseAuction s now).participants = s.participants
    ∧ (pauseAuction s now).auction.activeBid = s.auction.activeBid
    ∧ (pauseAuction s now).auction.status = s.auction.status
    ∧ (pauseAuction s now).auction.budgetPerPlayer = s.auction.budgetPerPlayer
    ∧ (pauseAuction s now).auction.currentPlayerIndex = s.auction.currentPlayerIndex := by
  simp only [pauseAuction]
  split
  · exact ⟨rfl, rfl, rfl, rfl, rfl⟩
  · exact ⟨rfl, rfl, rfl, rfl, rfl⟩

theorem resumeAuction_fields (s : AuctionState) (now : Int) :
    (resumeAuction s now).participants = s.participants
    ∧ (resumeAuction s now).auction.activeBid = s.auction.activeBid
    ∧ (resumeAuction s now).auction.status = s.auction.status
    ∧ (resumeAuction s now).auction.budgetPerPlayer = s.auction.budgetPerPlayer
    ∧ (resumeAuction s now).auction.currentPlayerIndex = s.auction.currentPlayerIndex := by
  simp only [resumeAuction]
  split
  · exact ⟨rfl, rfl, rfl, rfl, rfl⟩
  · exact ⟨rfl, rfl, rfl, rfl, rfl⟩

theorem submitTeam_ok {s s2 : AuctionState} {cid sport : String}
    {fr : List TaggedRosterEntry} {fc fl : Option String}
    (h : submitTeam s cid fr sport fc fl = .ok s2) :
    ∃ p, lookupP s.participants cid = some p
      ∧ s2 = { s with
          participants := setP s.participants cid
            ({ p with
                hasSubmittedTeam := true
                finalRoster := some fr
                finalRosterSport := some sport
                finalRosterFormation :=
                  if sport = "soccer" then
                    some (fc.getD "custom", fl.getD (fc.getD "Custom formation"))
                  else none }) } := by
  simp only [submitTeam] at h
  split at h
  · exact absurd h (by simp)
  · next p hsome =>
    injection h with h
    exact ⟨p, hsome, h.symm⟩

theorem openFinalizationPhase_ok {s s2 : AuctionState}
    (h : openFinalizationPhase s = .ok s2) :
    s.auction.status = .ended
    ∧ (s2 = s ∨ s2 = { s with auction := { s.auction with finalizationOpen := true } }) := by
  simp only [openFinalizationPhase] at h
  split at h
  · exact absurd h (by simp)
  · next hst =>
    split at h
    · injection h with h
      exact ⟨not_not.mp hst, Or.inl h.symm⟩
    · injection h with h
      exact ⟨not_not.mp hst, Or.inr h.symm⟩

theorem relistUnsoldPlayer_ok {s s2 : AuctionState} {pid : String} {now : Int}
    (h : relistUnsoldPlayer s pid now = .ok s2) :
    ∃ entry, s.auction.completedPlayers.find? (fun p => p.id == pid) = some entry
      ∧ entry.result = .unsold
      ∧ s2 = { s with
          auction := { s.auction with
            status := .live
            manualPlayer := some
              { key := "manual-" ++ entry.id ++ "-" ++ toString now
                name := entry.playerName
                categoryLabel := entry.categoryLabel
                basePrice := entry.basePrice
                sourceId := entry.id }
            manualSourceId := some entry.id
            countdownEndsAt := some (now + START_TIMER_MS)
            countdownDuration := some START_TIMER_MS
            activeBid := none
            skipVotes := []
            isPaused := false
            pausedRemainingMs := none } } := by
  simp only [relistUnsoldPlayer] at h
  split at h
  · exact absurd h (by simp)
  · next entry hfind =>
    split at h
    · exact absurd h (by simp)
    · next hres =>
      injection h with h
      exact ⟨entry, hfind, not_not.mp hres, h.symm⟩

theorem submitRanking_ok {s s2 : AuctionState} {cid : String} {ord : List String}
    (h : submitRanking s cid ord = .ok s2) :
    ∃ p, lookupP s.participants cid = some p
      ∧ s2 = { s with
          participants := setP s.participants cid
            ({ p with
                rankings := buildRankings s.auction.participantCount ord
                rankingSubmitted := true }) } := by
  simp only [submitRanking] at h
  split at h
  · exact absurd h (by simp)
  · next p hsome =>
    injection h with h
    exact ⟨p, hsome, h.symm⟩

theorem finalizeResults_fields (s : AuctionState) :
    (finalizeResults s).participants = s.participants
    ∧ (finalizeResults s).auction.activeBid = s.auction.activeBid
    ∧ (finalizeResults s).auction.budgetPerPlayer = s.auction.budgetPerPlayer
    ∧ (finalizeResults s).auction.currentPlayerIndex = s.auction.currentPlayerIndex
    ∧ ((finalizeResults s).auction.status = s.auction.status
        ∨ (s.auction.status = .ranking ∧ (finalizeResults s).auction.status = .results)) := by
  simp only [finalizeResults]
  split
  · exact ⟨rfl, rfl, rfl, rfl, Or.inl rfl⟩
  · next hst =>
    exact ⟨rfl, rfl, rfl, rfl, Or.inr ⟨not_not.mp hst, rfl⟩⟩

theorem sellOutcome_ok {s : AuctionState} {cp : PlayerSlot} {fu : Bool}
    {r : CompletedPlayerEntry × List (String × Participant)}
    (h : sellOutcome s cp fu = .ok r) :
    (r.1 = unsoldEntryOf cp ∧ r.2 = s.participants)
    ∨ (∃ b participant, s.auction.activeBid = some b ∧ fu = false
        ∧ lookupP s.participants b.bidderId = some participant
        ∧ r.1 = { unsoldEntryOf cp with
            result := .sold
            winnerId := some b.bidderId
            winnerName := some b.bidderName
            finalBid := some b.amount }
        ∧ r.2 = setP s.participants b.bidderId
            ({ participant with
                roster := participant.roster ++ [⟨cp.name, cp.categoryLabel, b.amount⟩]
                budgetRemaining := participant.budgetRemaining - b.amount
                playersNeeded := max (participant.playersNeeded - 1) 0 })) := by
  simp only [sellOutcome] at h
  split at h
  · next b hb =>
    split at h
    · exact absurd h (by simp)
    · next participant hpart =>
      injection h with h
      refine Or.inr ⟨b, participant, hb, rfl, hpart, ?_, ?_⟩
      · rw [← h]
      · rw [← h]
  · next hcatch =>
    injection h with h
    exact Or.inl ⟨by rw [← h], by rw [← h]⟩

theorem finalizeCurrentPlayer_ok {s s2 : AuctionState} {fu : Bool} {now : Int}
    (h : finalizeCurrentPlayer s fu now = .ok s2) :
    (s.auction.status ≠ .live ∧ s2 = s)
    ∨ (s.auction.status = .live
        ∧ (getActiveSlot s.auction (buildPlayerQueue s.auction.categories)).1 = none
        ∧ s2 = { s with auction := endedClearedDoc s.auction })
    ∨ (s.auction.status = .live
        ∧ ∃ cp r,
            (getActiveSlot s.auction (buildPlayerQueue s.auction.categories)).1 = some cp
            ∧ sellOutcome s cp fu = .ok r
            ∧ s2.auction =
                finalizeAuctionDoc s.auction (buildPlayerQueue s.auction.categories)
                  (getActiveSlot s.auction (buildPlayerQueue s.auction.categories)).2
                  (finalizeHistory s.auction
                    (getActiveSlot s.auction (buildPlayerQueue s.auction.categories)).2 r.1)
                  now
            ∧ s2.participants = r.2) := by
  simp only [finalizeCurrentPlayer] at h
  split at h
  · next hst =>
    injection h with h
    exact Or.inl ⟨hst, h.symm⟩
  · next hst =>
    split at h
    · next hslot =>
      injection h with h
      exact Or.inr (Or.inl ⟨not_not.mp hst, hslot, h.symm⟩)
    · next cp hslot =>
      split at h
      · exact absurd h (by simp)
      · next r hsell =>
        injection h with h
        exact Or.inr (Or.inr ⟨not_not.mp hst, cp, r, hslot, hsell, by rw [← h], by rw [← h]⟩)

theorem finalizeAuctionDoc_activeBid (a : Auction) (queue : List PlayerSlot) (m : Bool)
    (history : List CompletedPlayerEntry) (now : Int) :
    (finalizeAuctionDoc a queue m history now).activeBid = none := by
  simp only [finalizeAuctionDoc]
  split
  · rfl
  · simp only [resolveNextPlayer]
    split
    · rfl
    · rfl

/-- C3 fixture: a live auction with an active bid of 15 by p1. -/
def c3State : AuctionState :=
  { auction := { sampleAuction with activeBid := some ⟨15, "p1", "P1"⟩ }
    participants := [("p1", sampleParticipant),
      ("p2", { sampleParticipant with name := "P2", role := .player })] }

/-- C3 fixture: the state after p2 raises to 20. -/
def c3State2 : AuctionState :=
  match placeBidTrx c3State "p2" "P2" 20 0 with
  | .ok s => s
  | .error _ => default

/-- C3: placeBid computes minimumBid as the maximum of the base price and
one more than the current active bid (the base price alone when no bid
exists), rejects a lower amount with the BidTooLow error that carries that
minimum, and on success installs the new bid, leaving the slot (queue index,
manual overlay, categories) unchanged and strictly exceeding any previous
active bid; moreover along every committed transaction of the machine the
active bid is preserved, cleared at a player-transition boundary, or
strictly increased. -/
theorem c3_monotonic_bid :
    (∀ (s : AuctionState) (cid bn : String) (amount now : Int) (slot : PlayerSlot)
        (participant : Participant),
      s.auction.status = .live →
      s.auction.isPaused = false →
      (getActiveSlot s.auction (buildPlayerQueue s.auction.categories)).1 = some slot →
      lookupP s.participants cid = some participant →
      (amount < minimumBidOf s.auction slot →
        placeBidTrx s cid bn amount now =
          .error ("Bid must be at least " ++ toString (minimumBidOf s.auction slot) ++ "."))
      ∧ (∀ s2, placeBidTrx s cid bn amount now = .ok s2 →
          s2.auction.activeBid = some ⟨amount, cid, bn⟩
          ∧ minimumBidOf s.auction slot ≤ amount
          ∧ s2.auction.currentPlayerIndex = s.auction.currentPlayerIndex
          ∧ s2.auction.manualPlayer = s.auction.manualPlayer
          ∧ s2.auction.categories = s.auction.categories
          ∧ (∀ b, s.auction.activeBid = some b → b.amount < amount)))
    ∧ (∀ s s2, Step s s2 →
        s2.auction.activeBid = s.auction.activeBid
        ∨ s2.auction.activeBid = none
        ∨ (∃ nb, s2.auction.activeBid = some nb
            ∧ ∀ b, s.auction.activeBid = some b → b.amount < nb.amount)) := by
  constructor
  · intro s cid bn amount now slot participant hlive hpause hslot hlook
    constructor
    · intro hlt
      simp [placeBidTrx, hlive, hpause, hslot, hlook, hlt]
    · intro s2 h
      rcases placeBidTrx_ok h with ⟨_, _, slot2, part2, hslot2, hlook2, hmin, hbud, hs2⟩
      rw [hslot] at hslot2
      injection hslot2 with hsl
      subst hsl
      refine ⟨by rw [hs2], hmin, by rw [hs2], by rw [hs2], by rw [hs2], ?_⟩
      intro b hb
      simp only [minimumBidOf, hb] at hmin
      omega
  · intro s s2 hstep
    cases hstep with
    | join pw cid dn h =>
      rcases joinAuction_ok h with ⟨p, _, hs2⟩ | ⟨_, ha, _⟩
      · left
        rw [hs2]
      · left
        rw [ha]
    | start now h =>
      right
      left
      rw [(startAuction_ok h).2]
    | bid cid bn amount now h =>
      rcases placeBidTrx_ok h with ⟨_, _, slot, part, hslot, hlook, hmin, hbud, hs2⟩
      right
      right
      refine ⟨⟨amount, cid, bn⟩, by rw [hs2], ?_⟩
      intro b hb
      simp only [minimumBidOf, hb] at hmin
      show b.amount < amount
      omega
    | skipVote cid h =>
      left
      rw [← h]
      exact (skipTrx_fields s cid).2.1
    | finalize fu now h =>
      rcases finalizeCurrentPlayer_ok h with ⟨_, hs2⟩ | ⟨_, _, hs2⟩ | ⟨_, cp, r, _, _, ha, _⟩
      · left
        rw [hs2]
      · right
        left
        rw [hs2]
        simp [endedClearedDoc]
      · right
        left
        rw [ha]
        exact finalizeAuctionDoc_activeBid _ _ _ _ _
    | pause now h =>
      left
      rw [← h]
      exact (pauseAuction_fields s now).2.1
    | resume now h =>
      left
      rw [← h]
      exact (resumeAuction_fields s now).2.1
    | team cid fr sport fc fl h =>
      rcases submitTeam_ok h with ⟨p, _, hs2⟩
      left
      rw [hs2]
    | openFin h =>
      rcases openFinalizationPhase_ok h with ⟨_, hs2 | hs2⟩ <;> (left; rw [hs2])
    | relist pid now h =>
      rcases relistUnsoldPlayer_ok h with ⟨e, _, _, hs2⟩
      right
      left
      rw [hs2]
    | ranking cid ord h =>
      rcases submitRanking_ok h with ⟨p, _, hs2⟩
      left
      rw [hs2]
    | finResults h =>
      left
      rw [← h]
      exact (finalizeResults_fields s).2.1
    | markRanking h =>
      left
      rw [← h]
      rfl

/-- C3 witness: the BidTooLow rejection at 15 against an active 15 bid, and
the step-level conclusion for the successful raise to 20. -/
theorem c3_witness :
    placeBidTrx c3State "p2" "P2" 15 0 = .error "Bid must be at least 16."
    ∧ (c3State2.auction.activeBid = c3State.auction.activeBid
        ∨ c3State2.auction.activeBid = none
        ∨ (∃ nb, c3State2.auction.activeBid = some nb
            ∧ ∀ b, c3State.auction.activeBid = some b → b.amount < nb.amount)) := by
  constructor
  · have h := (c3_monotonic_bid.1 c3State "p2" "P2" 15 0
      ⟨"c1-0", "X", "A", 10⟩ ({ sampleParticipant with name := "P2", role := .player })
      (by decide) (by decide) (by decide) (by decide)).1 (by decide)
    exact h.trans (congrArg Except.error (by decide))
  · exact c3_monotonic_bid.2 c3State c3State2 (Step.bid "p2" "P2" 20 0 (by rfl))

/-- C4 fixture: a live auction over a two-player queue at index 0. -/
def c4State : AuctionState :=
  { auction := { sampleAuction with
      categories := [{ id := "c1", label := "A", basePrice := 10, players := ["X", "Y"] }] }
    participants := [("p1", sampleParticipant)] }

/-- C4 fixture: the state after finalizing the first player. -/
def c4State2 : AuctionState :=
  match finalizeCurrentPlayer c4State false 0 with
  | .ok s => s
  | .error _ => default

/-- C4: finalizeCurrentPlayer on a live auction with a non-manual active
slot advances currentPlayerIndex to exactly previous + 1 and sets status to
ended, clearing countdown, active-bid, skip-vote and pause state, exactly
when previous + 1 equals the length of the queue rebuilt from the
categories. -/
theorem c4_queue_advance (s s2 : AuctionState) (fu : Bool) (now : Int)
    (hlive : s.auction.status = .live)
    (hman : s.auction.manualPlayer = none)
    (hidx : 0 ≤ s.auction.currentPlayerIndex)
    (hlen : s.auction.currentPlayerIndex < ((buildPlayerQueue s.auction.categories).length : Int))
    (h : finalizeCurrentPlayer s fu now = .ok s2) :
    s2.auction.currentPlayerIndex = s.auction.currentPlayerIndex + 1
    ∧ (s2.auction.status = .ended ↔
        s.auction.currentPlayerIndex + 1 = ((buildPlayerQueue s.auction.categories).length : Int))
    ∧ (s2.auction.status = .ended →
        s2.auction.countdownEndsAt = none
        ∧ s2.auction.countdownDuration = none
        ∧ s2.auction.activeBid = none
        ∧ s2.auction.skipVotes = []
        ∧ s2.auction.isPaused = false
        ∧ s2.auction.pausedRemainingMs = none) := by
  rcases finalizeCurrentPlayer_ok h with ⟨hns, _⟩ | ⟨_, hslotn, _⟩ | ⟨_, cp, r, hslot, hsell, ha, hp⟩
  · exact absurd hlive hns
  · exfalso
    simp only [getActiveSlot, hman, jsIndex] at hslotn
    rw [if_neg (by omega)] at hslotn
    rw [List.getElem?_eq_none_iff] at hslotn
    omega
  · have h2 : (getActiveSlot s.auction (buildPlayerQueue s.auction.categories)).2 = false := by
      simp [getActiveSlot, hman]
    rw [h2] at ha
    simp only [finalizeAuctionDoc, Bool.false_eq_true, if_false] at ha
    by_cases hnext :
        s.auction.currentPlayerIndex + 1 < ((buildPlayerQueue s.auction.categories).length : Int)
    · simp only [resolveNextPlayer] at ha
      rw [if_neg (not_not_intro hnext)] at ha
      rw [ha]
      refine ⟨rfl, ?_, ?_⟩
      · simp [hlive]
        omega
      · intro hend
        simp [hlive] at hend
    · simp only [resolveNextPlayer] at ha
      rw [if_pos hnext] at ha
      rw [ha]
      refine ⟨rfl, ?_, fun _ => ⟨rfl, rfl, rfl, rfl, rfl, rfl⟩⟩
      simp
      omega

/-- C4 witness: the queue-advance conclusions at the concrete two-player
auction, where finalizing slot 0 must stay live at index 1. -/
theorem c4_witness :
    c4State2.auction.currentPlayerIndex = c4State.auction.currentPlayerIndex + 1
    ∧ (c4State2.auction.status = .ended ↔
        c4State.auction.currentPlayerIndex + 1 =
          ((buildPlayerQueue c4State.auction.categories).length : Int))
    ∧ (c4State2.auction.status = .ended →
        c4State2.auction.countdownEndsAt = none
        ∧ c4State2.auction.countdownDuration = none
        ∧ c4State2.auction.activeBid = none
        ∧ c4State2.auction.skipVotes = []
        ∧ c4State2.auction.isPaused = false
        ∧ c4State2.auction.pausedRemainingMs = none) :=
  c4_queue_advance c4State c4State2 false 0 (by decide) (by decide) (by decide) (by decide)
    (by rfl)

/-! Lemmas on the skip-vote set model. -/

theorem dedup_foldl_of_nodup :
    ∀ {l acc : List String}, (acc ++ l).Nodup →
      l.foldl (fun acc2 v => if acc2.contains v then acc2 else acc2 ++ [v]) acc = acc ++ l := by
  intro l
  induction l with
  | nil =>
    intro acc _
    simp
  | cons a t ih =>
    intro acc h
    have hna : a ∉ acc := by
      intro hmem
      have := List.disjoint_of_nodup_append h
      exact this hmem (by simp)
    have hstep : (if acc.contains a then acc else acc ++ [a]) = acc ++ [a] := by
      simp [List.elem_iff, hna]
    simp only [List.foldl_cons, hstep]
    have h2 : ((acc ++ [a]) ++ t).Nodup := by
      rw [List.append_assoc, List.singleton_append]
      exact h
    rw [ih h2, List.append_assoc, List.singleton_append]

theorem jsSetAdd_eq_of_nodup {votes : List String} (h : votes.Nodup) (x : String) :
    jsSetAdd votes x = if x ∈ votes then votes else votes ++ [x] := by
  have hd : votes.foldl (fun acc2 v => if acc2.contains v then acc2 else acc2 ++ [v]) [] =
      votes := dedup_foldl_of_nodup (by simpa using h)
  simp only [jsSetAdd]
  rw [hd]
  by_cases hx : x ∈ votes <;> simp [List.elem_iff, hx]

theorem jsSetAdd_nodup {votes : List String} (h : votes.Nodup) (x : String) :
    (jsSetAdd votes x).Nodup := by
  rw [jsSetAdd_eq_of_nodup h x]
  by_cases hx : x ∈ votes
  · simpa [hx] using h
  · simp [hx, List.nodup_append, h]

theorem jsSetAdd_toFinset {votes : List String} (h : votes.Nodup) (x : String) :
    (jsSetAdd votes x).toFinset = insert x votes.toFinset := by
  rw [jsSetAdd_eq_of_nodup h x]
  by_cases hx : x ∈ votes
  · rw [if_pos hx]
    exact (Finset.insert_eq_self.mpr (List.mem_toFinset.mpr hx)).symm
  · rw [if_neg hx]
    simp [List.toFinset_append, Finset.union_comm, Finset.insert_eq]

theorem filter_ne_length_eq_erase_card {l : List String} (h : l.Nodup) (b : String) :
    (l.filter (fun id => id ≠ b)).length = (l.toFinset.erase b).card := by
  have h1 : (l.filter (fun id => id ≠ b)).toFinset = l.toFinset.erase b := by
    ext a
    simp [List.mem_toFinset, List.mem_filter, Finset.mem_erase, and_comm]
  rw [← h1]
  exact (List.toFinset_card_of_nodup (h.filter _)).symm

theorem nodup_length_eq_card {l : List String} (h : l.Nodup) :
    l.length = l.toFinset.card :=
  (List.toFinset_card_of_nodup h).symm

theorem jsSetAdd_self_mem {votes : List String} (h : votes.Nodup) (x : String) :
    x ∈ jsSetAdd votes x := by
  rw [jsSetAdd_eq_of_nodup h x]
  by_cases hx : x ∈ votes <;> simp [hx]

theorem jsSetAdd_idem {votes : List String} (h : votes.Nodup) (x : String) :
    jsSetAdd (jsSetAdd votes x) x = jsSetAdd votes x := by
  rw [jsSetAdd_eq_of_nodup (jsSetAdd_nodup h x) x,
    if_pos (jsSetAdd_self_mem h x)]

/-- C2: on a live, unpaused auction skipPlayer records the vote as a set
(set-insert on the stored votes, idempotent), and the transaction resolves
exactly by the quorum rule: with an active bid, resolution (a sale,
forceUnsold false) fires exactly when the number of distinct voters other
than the current high bidder reaches max(participantCount - 1, 1); with no
active bid, a forced-unsold resolution fires exactly when the number of
distinct voters reaches participantCount; on resolution skipPlayer invokes
finalizeCurrentPlayer with that forceUnsold flag, and otherwise only the
lock-resolution sweep runs. -/
theorem c2_skip_quorum (s : AuctionState) (cid : String) (now : Int)
    (hlive : s.auction.status = .live)
    (hpause : s.auction.isPaused = false)
    (hnd : s.auction.skipVotes.Nodup) :
    (skipTrx s cid).1.auction.skipVotes.toFinset = insert cid s.auction.skipVotes.toFinset
    ∧ (skipTrx s cid).1.auction.skipVotes.Nodup
    ∧ (skipTrx (skipTrx s cid).1 cid).1 = (skipTrx s cid).1
    ∧ (∀ b, s.auction.activeBid = some b →
        ((skipTrx s cid).2.1 = true ↔
          ((((skipTrx s cid).1.auction.skipVotes.toFinset.erase b.bidderId).card : Int) ≥
            max (s.auction.participantCount - 1) 1))
        ∧ (skipTrx s cid).2.2 = false)
    ∧ (s.auction.activeBid = none →
        ((skipTrx s cid).2.1 = true ↔
          (((skipTrx s cid).1.auction.skipVotes.toFinset.card : Int) ≥
            s.auction.participantCount))
        ∧ (skipTrx s cid).2.2 = true)
    ∧ ((skipTrx s cid).2.1 = true →
        skipPlayer s cid now = finalizeCurrentPlayer (skipTrx s cid).1 (skipTrx s cid).2.2 now)
    ∧ ((skipTrx s cid).2.1 = false →
        skipPlayer s cid now = maybeResolveLockedAuction (skipTrx s cid).1 now) := by
  have hcond : ¬(s.auction.status ≠ .live ∨ s.auction.isPaused = true) := by
    simp [hlive, hpause]
  have h1 : (skipTrx s cid).1 =
      { s with auction := { s.auction with skipVotes := jsSetAdd s.auction.skipVotes cid } } := by
    simp only [skipTrx]
    rw [if_neg hcond]
    cases s.auction.activeBid <;> rfl
  refine ⟨?_, ?_, ?_, ?_, ?_, ?_, ?_⟩
  · rw [h1]
    exact jsSetAdd_toFinset hnd cid
  · rw [h1]
    exact jsSetAdd_nodup hnd cid
  · rw [h1]
    have hcond2 : ¬((({ s with auction :=
        { s.auction with skipVotes := jsSetAdd s.auction.skipVotes cid } } :
          AuctionState).auction.status ≠ .live)
        ∨ ({ s with auction :=
            { s.auction with skipVotes := jsSetAdd s.auction.skipVotes cid } } :
          AuctionState).auction.isPaused = true) := by
      simp [hlive, hpause]
    simp only [skipTrx]
    rw [if_neg hcond2]
    have hidem : jsSetAdd (jsSetAdd s.auction.skipVotes cid) cid =
        jsSetAdd s.auction.skipVotes cid := jsSetAdd_idem hnd cid
    cases s.auction.activeBid <;> simp [hidem]
  · intro b hab
    have hd : (skipTrx s cid).2 =
        (decide ((((jsSetAdd s.auction.skipVotes cid).filter
            (fun id => id ≠ b.bidderId)).length : Int) ≥
          max (s.auction.participantCount - 1) 1), false) := by
      simp only [skipTrx]
      rw [if_neg hcond]
      simp only [hab]
    constructor
    · rw [hd, h1]
      simp only [decide_eq_true_eq]
      rw [filter_ne_length_eq_erase_card (jsSetAdd_nodup hnd cid) b.bidderId]
    · rw [hd]
  · intro hab
    have hd : (skipTrx s cid).2 =
        (decide (((jsSetAdd s.auction.skipVotes cid).length : Int) ≥
          s.auction.participantCount), true) := by
      simp only [skipTrx]
      rw [if_neg hcond]
      simp only [hab]
    constructor
    · rw [hd, h1]
      simp only [decide_eq_true_eq]
      rw [nodup_length_eq_card (jsSetAdd_nodup hnd cid)]
    · rw [hd]
  · intro hres
    simp only [skipPlayer]
    rw [if_pos hres]
  · intro hres
    simp only [skipPlayer]
    rw [if_neg (by rw [hres]; exact Bool.false_ne_true)]

/-- C2 witness: the quorum conclusions at a concrete live two-participant
auction with an active bid by p1 and a skip vote from p2. -/
theorem c2_witness :
    (skipTrx c3State "p2").1.auction.skipVotes.toFinset =
      insert "p2" c3State.auction.skipVotes.toFinset
    ∧ (skipTrx c3State "p2").1.auction.skipVotes.Nodup
    ∧ (skipTrx (skipTrx c3State "p2").1 "p2").1 = (skipTrx c3State "p2").1
    ∧ (∀ b, c3State.auction.activeBid = some b →
        ((skipTrx c3State "p2").2.1 = true ↔
          ((((skipTrx c3State "p2").1.auction.skipVotes.toFinset.erase b.bidderId).card : Int) ≥
            max (c3State.auction.participantCount - 1) 1))
        ∧ (skipTrx c3State "p2").2.2 = false)
    ∧ (c3State.auction.activeBid = none →
        ((skipTrx c3State "p2").2.1 = true ↔
          (((skipTrx c3State "p2").1.auction.skipVotes.toFinset.card : Int) ≥
            c3State.auction.participantCount))
        ∧ (skipTrx c3State "p2").2.2 = true)
    ∧ ((skipTrx c3State "p2").2.1 = true →
        skipPlayer c3State "p2" 0 =
          finalizeCurrentPlayer (skipTrx c3State "p2").1 (skipTrx c3State "p2").2.2 0)
    ∧ ((skipTrx c3State "p2").2.1 = false →
        skipPlayer c3State "p2" 0 = maybeResolveLockedAuction (skipTrx c3State "p2").1 0) :=
  c2_skip_quorum c3State "p2" 0 (by decide) (by decide) (by decide)

/-- The manual slot installed by a relist of entry e0 at time now1. -/
def relistManual (e0 : CompletedPlayerEntry) (now1 : Int) : ManualPlayer :=
  { key := "manual-" ++ e0.id ++ "-" ++ toString now1
    name := e0.playerName
    categoryLabel := e0.categoryLabel
    basePrice := e0.basePrice
    sourceId := e0.id }

/-- The sold ledger entry written when a relisted player is re-sold. -/
def c5SoldEntry (e0 : CompletedPlayerEntry) (pid cid bn : String) (amt : Int) :
    CompletedPlayerEntry :=
  { id := pid
    playerName := e0.playerName
    categoryLabel := e0.categoryLabel
    basePrice := e0.basePrice
    result := .sold
    winnerId := some cid
    winnerName := some bn
    finalBid := some amt }

/-- C5: relisting an unsold ledger entry and then finalizing it with an
active bid rewrites that same ledger entry in place to sold with the new
winner and final bid, leaves completedPlayers at the same length (no
duplicate entry), and leaves currentPlayerIndex unchanged. -/
theorem c5_relist_roundtrip (s s1 s2 s3 : AuctionState) (pid cid bn : String)
    (now1 amt now2 now3 : Int)
    (hpid : pid ≠ "")
    (hrel : relistUnsoldPlayer s pid now1 = .ok s1)
    (hbid : placeBidTrx s1 cid bn amt now2 = .ok s2)
    (hfin : finalizeCurrentPlayer s2 false now3 = .ok s3) :
    ∃ e0, s.auction.completedPlayers.find? (fun p => p.id == pid) = some e0
      ∧ e0.result = .unsold
      ∧ s3.auction.completedPlayers = s.auction.completedPlayers.map (fun q =>
          if q.id = pid then c5SoldEntry e0 pid cid bn amt else q)
      ∧ s3.auction.completedPlayers.length = s.auction.completedPlayers.length
      ∧ s3.auction.currentPlayerIndex = s.auction.currentPlayerIndex := by
  rcases relistUnsoldPlayer_ok hrel with ⟨e0, hfind, hunsold, hs1⟩
  have hid : e0.id = pid := by
    have h2 := List.find?_some hfind
    simpa using h2
  rcases placeBidTrx_ok hbid with ⟨_, _, slot2, part2, hslot2, hlook2, hmin2, hbud2, hs2⟩
  refine ⟨e0, hfind, hunsold, ?_⟩
  have hstat2 : s2.auction.status = .live := by rw [hs2, hs1]
  have hman2 : s2.auction.manualPlayer = some (relistManual e0 now1) := by rw [hs2, hs1]; rfl
  have hsrc2 : s2.auction.manualSourceId = some e0.id := by rw [hs2, hs1]
  have hcomp2 : s2.auction.completedPlayers = s.auction.completedPlayers := by rw [hs2, hs1]
  have hidx2 : s2.auction.currentPlayerIndex = s.auction.currentPlayerIndex := by rw [hs2, hs1]
  have hab2 : s2.auction.activeBid = some ⟨amt, cid, bn⟩ := by rw [hs2]
  have hpart2 : lookupP s2.participants cid = some part2 := by
    rw [hs2]
    exact hlook2
  have hslotm : getActiveSlot s2.auction (buildPlayerQueue s2.auction.categories) =
      (some (relistManual e0 now1).toPlayerSlot, true) := by
    simp [getActiveSlot, hman2]
  rcases finalizeCurrentPlayer_ok hfin with ⟨hns, _⟩ | ⟨_, hslotn, _⟩ | ⟨_, cp, r, hslot, hsell, ha, hp⟩
  · exact absurd hstat2 hns
  · rw [hslotm] at hslotn
    simp at hslotn
  · rw [hslotm] at hslot
    simp only [Option.some.injEq] at hslot
    subst hslot
    have hsell2 : sellOutcome s2 (relistManual e0 now1).toPlayerSlot false = .ok
        ({ id := "manual-" ++ e0.id ++ "-" ++ toString now1
           playerName := e0.playerName
           categoryLabel := e0.categoryLabel
           basePrice := e0.basePrice
           result := .sold
           winnerId := some cid
           winnerName := some bn
           finalBid := some amt },
         setP s2.participants cid
           ({ part2 with
               roster := part2.roster ++ [⟨e0.playerName, e0.categoryLabel, amt⟩]
               budgetRemaining := part2.budgetRemaining - amt
               playersNeeded := max (part2.playersNeeded - 1) 0 })) := by
      simp [sellOutcome, hab2, hpart2, unsoldEntryOf, relistManual]
    rw [hsell2] at hsell
    injection hsell with hr
    subst hr
    have htruthy : jsTruthy e0.id = true := by
      simp [jsTruthy, hid, hpid]
    have hslot2eq : (getActiveSlot s2.auction (buildPlayerQueue s2.auction.categories)).2 =
        true := by
      rw [hslotm]
    rw [hslot2eq] at ha
    have hhist : finalizeHistory s2.auction true
        ({ id := "manual-" ++ e0.id ++ "-" ++ toString now1
           playerName := e0.playerName
           categoryLabel := e0.categoryLabel
           basePrice := e0.basePrice
           result := .sold
           winnerId := some cid
           winnerName := some bn
           finalBid := some amt } : CompletedPlayerEntry) =
        s.auction.completedPlayers.map (fun q =>
          if q.id = pid then c5SoldEntry e0 pid cid bn amt else q) := by
      simp only [finalizeHistory, hsrc2, htruthy, hcomp2, Bool.and_self, if_pos]
      apply List.map_congr_left
      intro q hq
      by_cases hqid : q.id = pid
      · simp [hqid, hid, c5SoldEntry]
      · simp [hqid, hid]
    rw [hhist] at ha
    refine ⟨?_, ?_, ?_⟩
    · rw [ha]
      simp [finalizeAuctionDoc]
    · rw [ha]
      simp [finalizeAuctionDoc]
    · rw [ha]
      simp [finalizeAuctionDoc, hidx2]

/-- C5 fixture: the unsold ledger entry for the one queue player. -/
def c5Entry : CompletedPlayerEntry :=
  { id := "c1-0"
    playerName := "X"
    categoryLabel := "A"
    basePrice := 10
    result := .unsold
    winnerId := none
    winnerName := none
    finalBid := none }

/-- C5 fixture: an ended auction whose ledger holds one unsold entry. -/
def c5State : AuctionState :=
  { auction := { sampleAuction with
      status := .ended
      currentPlayerIndex := 1
      completedPlayers := [c5Entry] }
    participants := [("p1", sampleParticipant),
      ("p2", { sampleParticipant with name := "P2", role := .player })] }

/-- C5 fixture: after relisting the unsold entry. -/
def c5State1 : AuctionState :=
  match relistUnsoldPlayer c5State "c1-0" 7 with
  | .ok s => s
  | .error _ => default

/-- C5 fixture: after p1 bids the base price on the relisted slot. -/
def c5State2 : AuctionState :=
  match placeBidTrx c5State1 "p1" "P1" 10 8 with
  | .ok s => s
  | .error _ => default

/-- C5 fixture: after finalizing the relisted slot. -/
def c5State3 : AuctionState :=
  match finalizeCurrentPlayer c5State2 false 9 with
  | .ok s => s
  | .error _ => default

/-- C5 witness: the round trip at the concrete relisted entry. -/
theorem c5_witness :
    ∃ e0, c5State.auction.completedPlayers.find? (fun p => p.id == "c1-0") = some e0
      ∧ e0.result = .unsold
      ∧ c5State3.auction.completedPlayers = c5State.auction.completedPlayers.map (fun q =>
          if q.id = "c1-0" then c5SoldEntry e0 "c1-0" "p1" "P1" 10 else q)
      ∧ c5State3.auction.completedPlayers.length = c5State.auction.completedPlayers.length
      ∧ c5State3.auction.currentPlayerIndex = c5State.auction.currentPlayerIndex :=
  c5_relist_roundtrip c5State c5State1 c5State2 c5State3 "c1-0" "p1" "P1" 7 10 8 9
    (by decide) (by rfl) (by rfl) (by rfl)

/-! Lemmas on the ranking records and the score board. -/

theorem recordGetD_nil (k : String) (d : Int) : recordGetD [] k d = d := rfl

theorem recordGetD_cons (e : String × Int) (t : List (String × Int)) (k : String) (d : Int) :
    recordGetD (e :: t) k d = if e.1 = k then e.2 else recordGetD t k d := by
  by_cases h : e.1 = k
  · simp [recordGetD, List.find?_cons_of_pos, h]
  · have hb : (e.1 == k) = false := by simp [h]
    simp [recordGetD, List.find?_cons_of_neg, hb, h]

theorem recordGetD_recordSet (m : List (String × Int)) (k : String) (v : Int) (q : String) :
    recordGetD (recordSet m k v) q 0 = if q = k then v else recordGetD m q 0 := by
  induction m with
  | nil =>
    rw [recordSet, recordGetD_cons, recordGetD_nil]
    by_cases h : q = k
    · rw [if_pos h, if_pos h.symm]
    · rw [if_neg h, if_neg (fun hh => h hh.symm)]
  | cons e t ih =>
    rw [recordSet]
    by_cases he : e.1 = k
    · rw [if_pos he, recordGetD_cons, recordGetD_cons]
      by_cases h : q = k
      · rw [if_pos h, if_pos h.symm]
      · rw [if_neg h, if_neg (fun hh => h hh.symm), if_neg (by rw [he]; exact fun hh => h hh.symm)]
    · rw [if_neg he, recordGetD_cons, recordGetD_cons]
      by_cases hq : e.1 = q
      · have : ¬q = k := by rw [← hq]; exact fun hh => he hh
        rw [if_pos hq, if_pos hq, if_neg this]
      · rw [if_neg hq, if_neg hq, ih]

theorem recordSet_of_keys_ne {m : List (String × Int)} {k : String}
    (h : ∀ e ∈ m, e.1 ≠ k) (v : Int) : recordSet m k v = m ++ [(k, v)] := by
  induction m with
  | nil => rfl
  | cons e t ih =>
    rw [recordSet, if_neg (h e (by simp)), ih (fun e2 he2 => h e2 (by simp [he2]))]
    rfl

/-- Per-target points contributed by one stored rankings map: the sum of the
values at the target key. -/
def scoreSumP (rankings : List (String × Int)) (k : String) : Int :=
  ((rankings.filter (fun e => e.1 = k)).map (fun e => e.2)).sum

/-- Per-target points summed across every participant document: the
specification-side reading of the score board. -/
def scoreSum (ps : List (String × Participant)) (k : String) : Int :=
  (ps.map (fun p => scoreSumP p.2.rankings k)).sum

theorem scoreSumP_nil (k : String) : scoreSumP [] k = 0 := rfl

theorem scoreSumP_cons (e : String × Int) (t : List (String × Int)) (k : String) :
    scoreSumP (e :: t) k = (if e.1 = k then e.2 else 0) + scoreSumP t k := by
  by_cases h : e.1 = k <;> simp [scoreSumP, h]

theorem recordGetD_fold_one (rankings : List (String × Int)) :
    ∀ (sb : List (String × Int)) (q : String),
      recordGetD
        (rankings.foldl (fun sb2 e => recordSet sb2 e.1 (recordGetD sb2 e.1 0 + e.2)) sb) q 0
        = recordGetD sb q 0 + scoreSumP rankings q := by
  induction rankings with
  | nil =>
    intro sb q
    simp [scoreSumP_nil]
  | cons e t ih =>
    intro sb q
    rw [List.foldl_cons, ih, recordGetD_recordSet, scoreSumP_cons]
    by_cases h : q = e.1
    · rw [if_pos h, if_pos h.symm, ← h]
      ring
    · rw [if_neg h, if_neg (fun hh => h hh.symm)]
      ring

theorem buildScoreBoard_getD (ps : List (String × Participant)) (q : String) :
    recordGetD (buildScoreBoard ps) q 0 = scoreSum ps q := by
  have hgen : ∀ (l : List (String × Participant)) (sb : List (String × Int)),
      recordGetD
        (l.foldl (fun sb2 p =>
          p.2.rankings.foldl (fun sb3 e => recordSet sb3 e.1 (recordGetD sb3 e.1 0 + e.2)) sb2)
          sb) q 0
        = recordGetD sb q 0 + scoreSum l q := by
    intro l
    induction l with
    | nil =>
      intro sb
      simp [scoreSum]
    | cons p t ih =>
      intro sb
      rw [List.foldl_cons, ih, recordGetD_fold_one]
      have : scoreSum (p :: t) q = scoreSumP p.2.rankings q + scoreSum t q := by
        simp [scoreSum]
      rw [this]
      ring
  have h2 := hgen ps []
  rw [recordGetD_nil] at h2
  rw [buildScoreBoard, h2]
  ring

theorem foldl_recordSet_append (f : Nat → Int) :
    ∀ (l : List (Nat × String)) (acc : List (String × Int)),
      (∀ e ∈ acc, ∀ p ∈ l, e.1 ≠ p.2) →
      (l.map Prod.snd).Nodup →
      l.foldl (fun m p => recordSet m p.2 (f p.1)) acc =
        acc ++ l.map (fun p => (p.2, f p.1)) := by
  intro l
  induction l with
  | nil =>
    intro acc _ _
    simp
  | cons p t ih =>
    intro acc hdisj hnd
    rw [List.foldl_cons,
      recordSet_of_keys_ne (fun e he => hdisj e he p (by simp)) (f p.1)]
    rw [List.map_cons] at hnd
    have hnd2 := List.Nodup.of_cons hnd
    have hhead : p.2 ∉ t.map Prod.snd := (List.nodup_cons.mp hnd).1
    rw [ih (acc ++ [(p.2, f p.1)]) ?_ hnd2]
    · simp
    · intro e he q hq
      rcases List.mem_append.mp he with he2 | he2
      · exact hdisj e he2 q (by simp [hq])
      · have he3 : e = (p.2, f p.1) := by simpa using he2
        rw [he3]
        intro hc
        have hc2 : p.2 = q.2 := hc
        apply hhead
        rw [hc2]
        exact List.mem_map_of_mem Prod.snd hq

theorem max_points_collapse (P : Int) (i : Nat) :
    max (max (P - 1) 1 - (i : Int)) 1 = max (P - 1 - (i : Int)) 1 := by
  omega

theorem buildRankings_eq (P : Int) (order : List String) (hnd : order.Nodup) :
    buildRankings P order =
      order.enum.map (fun q => (q.2, max (P - 1 - (q.1 : Int)) 1)) := by
  have hsnd : order.enum.map Prod.snd = order := List.enum_map_snd order
  have h1 := foldl_recordSet_append (fun i => max (max (P - 1) 1 - (i : Int)) 1)
    order.enum [] (by simp) (by rw [hsnd]; exact hnd)
  rw [buildRankings, h1, List.nil_append]
  apply List.map_congr_left
  intro q _
  simp only [max_points_collapse]

/-- C8: submitRanking converts the ordered rankingOrder into a points map
assigning max(participantCount - 1 - i, 1) points to the i-th (0-indexed)
target; finalizeResults is a no-op unless status is ranking and otherwise
writes status results together with a leaderboard that is sorted descending
by total points, carries 1-based ranks in order, and gives every row the sum
of the points it received across all stored rankings. -/
theorem c8_ranking_points :
    (∀ (st st2 : AuctionState) (cid : String) (ord : List String) (p : Participant),
      lookupP st.participants cid = some p →
      ord.Nodup →
      submitRanking st cid ord = .ok st2 →
      lookupP st2.participants cid = some
        ({ p with
            rankings := ord.enum.map (fun q =>
              (q.2, max (st.auction.participantCount - 1 - (q.1 : Int)) 1))
            rankingSubmitted := true }))
    ∧ (∀ st : AuctionState, st.auction.status ≠ .ranking → finalizeResults st = st)
    ∧ (∀ st : AuctionState, st.auction.status = .ranking →
        (finalizeResults st).auction.status = .results
        ∧ (finalizeResults st).auction.results.Pairwise (fun x y => x.points ≥ y.points)
        ∧ (∀ i (hi : i < (finalizeResults st).auction.results.length),
            ((finalizeResults st).auction.results.get ⟨i, hi⟩).rank = (i : Int) + 1)
        ∧ (∀ r ∈ (finalizeResults st).auction.results,
            r.points = scoreSum st.participants r.participantId)) := by
  refine ⟨?_, ?_, ?_⟩
  · intro st st2 cid ord p hlook hnd hsub
    rcases submitRanking_ok hsub with ⟨p2, hlook2, hs2⟩
    rw [hlook] at hlook2
    injection hlook2 with hp2
    subst hp2
    rw [hs2, lookupP_setP_self _ hlook, buildRankings_eq _ _ hnd]
  · intro st h
    simp [finalizeResults, h]
  · intro st hrank
    have hfr : finalizeResults st = { st with auction := { st.auction with
        status := .results
        results := ((st.participants.map (fun p =>
            ({ participantId := p.1
               name := p.2.name
               points := recordGetD (buildScoreBoard st.participants) p.1 0
               rosterCount :=
                 match p.2.finalRoster with
                 | some fr => (fr.length : Int)
                 | none => (p.2.roster.length : Int)
               budgetRemaining := p.2.budgetRemaining } : ResultRow))).mergeSort
            (fun x y => x.points ≥ y.points)).enum.map
            (fun q => { toResultRow := q.2, rank := (q.1 : Int) + 1 }) } } := by
      simp only [finalizeResults]
      rw [if_neg (not_not_intro hrank)]
    rw [hfr]
    have hsorted := @List.sorted_mergeSort ResultRow
      (fun x y : ResultRow => decide (x.points ≥ y.points))
      (by
        intro a b c hab hbc
        simp only [decide_eq_true_eq] at hab hbc ⊢
        omega)
      (by
        intro a b
        simp only [Bool.or_eq_true, decide_eq_true_eq]
        omega)
      (st.participants.map (fun p =>
        ({ participantId := p.1
           name := p.2.name
           points := recordGetD (buildScoreBoard st.participants) p.1 0
           rosterCount :=
             match p.2.finalRoster with
             | some fr => (fr.length : Int)
             | none => (p.2.roster.length : Int)
           budgetRemaining := p.2.budgetRemaining } : ResultRow)))
    refine ⟨rfl, ?_, ?_, ?_⟩
    · rw [List.pairwise_iff_getElem]
      intro i j hi hj hij
      simp only [List.length_map, List.enum_length] at hi hj
      simp only [List.getElem_map, List.getElem_enum]
      have h2 := (List.pairwise_iff_getElem.mp hsorted) i j hi hj hij
      simpa using h2
    · intro i hi
      simp only [List.length_map, List.enum_length] at hi
      rw [List.get_eq_getElem]
      simp only [List.getElem_map, List.getElem_enum]
    · intro r hr
      rcases List.mem_map.mp hr with ⟨q, hq, hgr⟩
      rcases List.mem_iff_getElem.mp hq with ⟨i, hilen, hqi⟩
      rw [List.getElem_enum] at hqi
      have hq2 : q.2 ∈ (st.participants.map (fun p =>
          ({ participantId := p.1
             name := p.2.name
             points := recordGetD (buildScoreBoard st.participants) p.1 0
             rosterCount :=
               match p.2.finalRoster with
               | some fr => (fr.length : Int)
               | none => (p.2.roster.length : Int)
             budgetRemaining := p.2.budgetRemaining } : ResultRow))).mergeSort
          (fun x y => x.points ≥ y.points) := by
        rw [← hqi]
        exact List.getElem_mem _
      have hq3 := (List.mergeSort_perm _ _).mem_iff.mp hq2
      rcases List.mem_map.mp hq3 with ⟨p, hp, hqp⟩
      rw [← hgr]
      show q.2.points = scoreSum st.participants q.2.participantId
      rw [← hqp]
      show recordGetD (buildScoreBoard st.participants) p.1 0 = scoreSum st.participants p.1
      exact buildScoreBoard_getD st.participants p.1

/-- C8 fixture: a three-participant auction in the ranking phase. -/
def c8State : AuctionState :=
  { auction := { sampleAuction with
      status := .ranking
      participantCount := 3
      maxParticipants := 3 }
    participants := [("p1", sampleParticipant),
      ("p2", { sampleParticipant with name := "P2", role := .player }),
      ("p3", { sampleParticipant with name := "P3", role := .player })] }

/-- C8 fixture: after p1 submits the ranking p2 before p3. -/
def c8State2 : AuctionState :=
  match submitRanking c8State "p1" ["p2", "p3"] with
  | .ok s => s
  | .error _ => default

/-- C8 witness: the three conclusions at concrete states. -/
theorem c8_witness :
    lookupP c8State2.participants "p1" = some
      ({ sampleParticipant with
          rankings := (["p2", "p3"].enum.map (fun q =>
            (q.2, max (c8State.auction.participantCount - 1 - (q.1 : Int)) 1)))
          rankingSubmitted := true })
    ∧ finalizeResults c3State = c3State
    ∧ ((finalizeResults c8State2).auction.status = .results
        ∧ (finalizeResults c8State2).auction.results.Pairwise (fun x y => x.points ≥ y.points)
        ∧ (∀ i (hi : i < (finalizeResults c8State2).auction.results.length),
            ((finalizeResults c8State2).auction.results.get ⟨i, hi⟩).rank = (i : Int) + 1)
        ∧ (∀ r ∈ (finalizeResults c8State2).auction.results,
            r.points = scoreSum c8State2.participants r.participantId)) :=
  ⟨c8_ranking_points.1 c8State c8State2 "p1" ["p2", "p3"] sampleParticipant
      (by decide) (by decide) (by rfl),
   c8_ranking_points.2.1 c3State (by decide),
   c8_ranking_points.2.2 c8State2 (by decide)⟩

theorem exists_key_recordSet (m : List (String × Int)) (k : String) (v : Int) :
    ∃ e ∈ recordSet m k v, e.1 = k := by
  induction m with
  | nil => exact ⟨(k, v), by simp [recordSet]⟩
  | cons e t ih =>
    rw [recordSet]
    by_cases he : e.1 = k
    · rw [if_pos he]
      exact ⟨(k, v), by simp⟩
    · rw [if_neg he]
      rcases ih with ⟨w, hw, hwk⟩
      exact ⟨w, by simp [hw], hwk⟩

theorem exists_key_recordSet_mono {m : List (String × Int)} {q : String}
    (h : ∃ e ∈ m, e.1 = q) (k : String) (v : Int) :
    ∃ e ∈ recordSet m k v, e.1 = q := by
  induction m with
  | nil => simp at h
  | cons e t ih =>
    rw [recordSet]
    rcases h with ⟨w, hw, hwq⟩
    by_cases he : e.1 = k
    · rw [if_pos he]
      rcases List.mem_cons.mp hw with hwe | hwt
      · exact ⟨(k, v), by simp, by rw [← he, ← hwe]; exact hwq⟩
      · exact ⟨w, by simp [hwt], hwq⟩
    · rw [if_neg he]
      rcases List.mem_cons.mp hw with hwe | hwt
      · exact ⟨e, by simp, by rw [← hwe]; exact hwq⟩
      · rcases ih ⟨w, hwt, hwq⟩ with ⟨w2, hw2, hw2q⟩
        exact ⟨w2, by simp [hw2], hw2q⟩

theorem foldl_recordSet_key (f : Nat → Int) :
    ∀ (l : List (Nat × String)) (acc : List (String × Int)) (id : String),
      (id ∈ l.map Prod.snd ∨ ∃ e ∈ acc, e.1 = id) →
      ∃ e ∈ l.foldl (fun m p => recordSet m p.2 (f p.1)) acc, e.1 = id := by
  intro l
  induction l with
  | nil =>
    intro acc id h
    rcases h with h | h
    · simp at h
    · exact h
  | cons p t ih =>
    intro acc id h
    rw [List.foldl_cons]
    apply ih
    rcases h with h | h
    · rw [List.map_cons] at h
      rcases List.mem_cons.mp h with hid | hid
      · exact Or.inr (by
          rcases exists_key_recordSet acc p.2 (f p.1) with ⟨e, he, hek⟩
          exact ⟨e, he, by rw [hek, ← hid]⟩)
      · exact Or.inl hid
    · exact Or.inr (exists_key_recordSet_mono h p.2 (f p.1))

theorem buildRankings_key (P : Int) (ord : List String) (id : String) (h : id ∈ ord) :
    ∃ v, (buildRankings P ord).find? (fun e => e.1 == id) = some (id, v) := by
  have hk : ∃ e ∈ buildRankings P ord, e.1 = id := by
    have h0 : buildRankings P ord = ord.enum.foldl
        (fun m p => recordSet m p.2 (max (max (P - 1) 1 - (p.1 : Int)) 1)) [] := rfl
    rw [h0]
    exact foldl_recordSet_key (fun i => max (max (P - 1) 1 - (i : Int)) 1) ord.enum [] id
      (Or.inl (by rw [List.enum_map_snd]; exact h))
  rcases hk with ⟨e, he, heid⟩
  have hsome : ((buildRankings P ord).find? (fun e => e.1 == id)).isSome := by
    rw [List.find?_isSome]
    exact ⟨e, he, by simp [heid]⟩
  rcases Option.isSome_iff_exists.mp hsome with ⟨e2, hfind⟩
  have hpred := List.find?_some hfind
  simp only [beq_iff_eq] at hpred
  refine ⟨e2.2, ?_⟩
  rw [hfind]
  congr
  rw [← hpred]

theorem finalizeResults_points_mem {st : AuctionState}
    (hrank : st.auction.status = .ranking) :
    ∀ r ∈ (finalizeResults st).auction.results,
      r.points = scoreSum st.participants r.participantId := by
  have hfr : finalizeResults st = { st with auction := { st.auction with
      status := .results
      results := ((st.participants.map (fun p =>
          ({ participantId := p.1
             name := p.2.name
             points := recordGetD (buildScoreBoard st.participants) p.1 0
             rosterCount :=
               match p.2.finalRoster with
               | some fr => (fr.length : Int)
               | none => (p.2.roster.length : Int)
             budgetRemaining := p.2.budgetRemaining } : ResultRow))).mergeSort
          (fun x y => x.points ≥ y.points)).enum.map
          (fun q => { toResultRow := q.2, rank := (q.1 : Int) + 1 }) } } := by
    simp only [finalizeResults]
    rw [if_neg (not_not_intro hrank)]
  rw [hfr]
  intro r hr
  rcases List.mem_map.mp hr with ⟨q, hq, hgr⟩
  rcases List.mem_iff_getElem.mp hq with ⟨i, hilen, hqi⟩
  rw [List.getElem_enum] at hqi
  have hq2 : q.2 ∈ (st.participants.map (fun p =>
      ({ participantId := p.1
         name := p.2.name
         points := recordGetD (buildScoreBoard st.participants) p.1 0
         rosterCount :=
           match p.2.finalRoster with
           | some fr => (fr.length : Int)
           | none => (p.2.roster.length : Int)
         budgetRemaining := p.2.budgetRemaining } : ResultRow))).mergeSort
      (fun x y => x.points ≥ y.points) := by
    rw [← hqi]
    exact List.getElem_mem _
  have hq3 := (List.mergeSort_perm _ _).mem_iff.mp hq2
  rcases List.mem_map.mp hq3 with ⟨p, hp, hqp⟩
  rw [← hgr]
  show q.2.points = scoreSum st.participants q.2.participantId
  rw [← hqp]
  exact buildScoreBoard_getD st.participants p.1

/-- C10: submitRanking checks no auction status at all (it succeeds for a
registered submitter in every phase), writes a points entry for every id in
rankingOrder without validating that the id is another participant (in
particular the own id of the submitter), and finalizeResults counts those
self-assigned points: the points of a participant split into the points they
assigned to themself plus the points from everyone else. -/
theorem c10_submitRanking_unvalidated :
    (∀ (st : AuctionState) (cid : String) (ord : List String) (p : Participant),
      lookupP st.participants cid = some p →
      ∃ st2, submitRanking st cid ord = .ok st2)
    ∧ (∀ (P : Int) (ord : List String) (id : String), id ∈ ord →
        ∃ v, (buildRankings P ord).find? (fun e => e.1 == id) = some (id, v))
    ∧ (∀ (st : AuctionState) (cid : String) (p : Participant),
        st.auction.status = .ranking →
        (cid, p) ∈ st.participants →
        ∀ r ∈ (finalizeResults st).auction.results,
          r.participantId = cid →
          ∃ rest, st.participants.Perm ((cid, p) :: rest)
            ∧ r.points = scoreSumP p.rankings cid + scoreSum rest cid) := by
  refine ⟨?_, ?_, ?_⟩
  · intro st cid ord p hlook
    exact ⟨{ st with
        participants := setP st.participants cid
          ({ p with
              rankings := buildRankings st.auction.participantCount ord
              rankingSubmitted := true }) },
      by simp only [submitRanking, hlook]⟩
  · intro P ord id h
    exact buildRankings_key P ord id h
  · intro st cid p hrank hmem r hr hid
    have hperm := List.perm_cons_erase hmem
    refine ⟨_, hperm, ?_⟩
    rw [finalizeResults_points_mem hrank r hr, hid]
    have hsplit := (hperm.map (fun q => scoreSumP q.2.rankings cid)).sum_eq
    show scoreSum st.participants cid = _
    unfold scoreSum
    rw [hsplit]
    simp

/-- C10 fixture: a ranking-phase auction where p1 has stored self-points. -/
def c10State : AuctionState :=
  { auction := { sampleAuction with status := .ranking }
    participants := [("p1", { sampleParticipant with rankings := [("p1", 2), ("p2", 1)] }),
      ("p2", { sampleParticipant with name := "P2", role := .player })] }

/-- C10 witness: submitRanking succeeds on a live (non-ranking) auction, the
points map holds an entry for the own id of the submitter, and the
leaderboard points of the self-ranking participant include the self-assigned
points as a summand. -/
theorem c10_witness :
    (∃ st2, submitRanking c3State "p2" ["p2", "p1"] = .ok st2)
    ∧ (∃ v, (buildRankings 3 ["p1", "p2"]).find? (fun e => e.1 == "p1") = some ("p1", v))
    ∧ (∀ r ∈ (finalizeResults c10State).auction.results,
        r.participantId = "p1" →
        ∃ rest, c10State.participants.Perm
            (("p1", { sampleParticipant with rankings := [("p1", 2), ("p2", 1)] }) :: rest)
          ∧ r.points = scoreSumP [("p1", 2), ("p2", 1)] "p1" + scoreSum rest "p1") :=
  ⟨c10_submitRanking_unvalidated.1 c3State "p2" ["p2", "p1"]
      ({ sampleParticipant with name := "P2", role := .player }) (by decide),
   c10_submitRanking_unvalidated.2.1 3 ["p1", "p2"] "p1" (by decide),
   c10_submitRanking_unvalidated.2.2 c10State "p1"
      ({ sampleParticipant with rankings := [("p1", 2), ("p2", 1)] }) (by decide) (by decide)⟩

/-! Budget-conservation preservation, one lemma per committed transaction. -/

theorem finalizeAuctionDoc_budgetPerPlayer (a : Auction) (queue : List PlayerSlot) (m : Bool)
    (history : List CompletedPlayerEntry) (now : Int) :
    (finalizeAuctionDoc a queue m history now).budgetPerPlayer = a.budgetPerPlayer := by
  simp only [finalizeAuctionDoc]
  split
  · rfl
  · simp only [resolveNextPlayer]
    split
    · rfl
    · rfl

theorem budget_transfer {s s2 : AuctionState}
    (h1 : s2.participants = s.participants)
    (h2 : s2.auction.budgetPerPlayer = s.auction.budgetPerPlayer)
    (inv : BudgetInvariant s) : BudgetInvariant s2 := by
  intro p hp
  rw [h1] at hp
  rw [h2]
  exact inv p hp

theorem budget_setP {s : AuctionState} {cid : String} {p : Participant} (v : Participant)
    (hlook : lookupP s.participants cid = some p)
    (hb : v.budgetRemaining = p.budgetRemaining)
    (hr : v.roster = p.roster)
    (inv : BudgetInvariant s) :
    ∀ x ∈ setP s.participants cid v,
      x.2.budgetRemaining = s.auction.budgetPerPlayer - rosterSum x.2.roster := by
  intro x hx
  rcases mem_setP hx with hmem | hv
  · exact inv x hmem
  · rw [hv, hb, hr]
    exact inv (cid, p) (lookupP_mem hlook)

theorem bi_create {input : CreateAuctionInput} {s : AuctionState}
    (h : createAuctionState input = .ok s) : BudgetInvariant s := by
  rcases createAuctionState_ok h with ⟨_, hbp, hps⟩
  intro x hx
  rw [hps] at hx
  simp only [List.mem_singleton] at hx
  rw [hx, hbp]
  simp [rosterSum]

theorem bi_join {s s2 : AuctionState} {pw cid dn : String}
    (h : joinAuction s pw cid dn = .ok s2) (inv : BudgetInvariant s) : BudgetInvariant s2 := by
  rcases joinAuction_ok h with ⟨p, hlook, hs2⟩ | ⟨_, ha, hps⟩
  · rw [hs2]
    intro x hx
    exact budget_setP ({ p with name := jsOr (jsSlice (jsTrim dn) 10) p.name })
      hlook rfl rfl inv x hx
  · intro x hx
    rw [hps] at hx
    rw [ha]
    rcases List.mem_append.mp hx with hold | hnew
    · exact inv x hold
    · simp only [List.mem_singleton] at hnew
      rw [hnew]
      simp [rosterSum]

theorem bi_start {s s2 : AuctionState} {now : Int}
    (h : startAuction s now = .ok s2) (inv : BudgetInvariant s) : BudgetInvariant s2 := by
  rcases startAuction_ok h with ⟨_, hs2⟩
  exact budget_transfer (by rw [hs2]) (by rw [hs2]) inv

theorem bi_bid {s s2 : AuctionState} {cid bn : String} {amount now : Int}
    (h : placeBidTrx s cid bn amount now = .ok s2) (inv : BudgetInvariant s) :
    BudgetInvariant s2 := by
  rcases placeBidTrx_ok h with ⟨_, _, _, _, _, _, _, _, hs2⟩
  exact budget_transfer (by rw [hs2]) (by rw [hs2]) inv

theorem bi_skip {s : AuctionState} (cid : String) (inv : BudgetInvariant s) :
    BudgetInvariant (skipTrx s cid).1 :=
  budget_transfer (skipTrx_fields s cid).1 (skipTrx_fields s cid).2.2.2.2.1 inv

theorem bi_finalize {s s2 : AuctionState} {fu : Bool} {now : Int}
    (h : finalizeCurrentPlayer s fu now = .ok s2) (inv : BudgetInvariant s) :
    BudgetInvariant s2 := by
  rcases finalizeCurrentPlayer_ok h with ⟨_, hs2⟩ | ⟨_, _, hs2⟩ | ⟨_, cp, r, _, hsell, ha, hp⟩
  · rw [hs2]
    exact inv
  · exact budget_transfer (by rw [hs2]) (by rw [hs2]; rfl) inv
  · have hbpp : s2.auction.budgetPerPlayer = s.auction.budgetPerPlayer := by
      rw [ha]
      exact finalizeAuctionDoc_budgetPerPlayer _ _ _ _ _
    rcases sellOutcome_ok hsell with ⟨_, hps⟩ | ⟨b, participant, _, _, hlookw, _, hps⟩
    · exact budget_transfer (by rw [hp, hps]) hbpp inv
    · intro x hx
      rw [hp, hps] at hx
      rw [hbpp]
      rcases mem_setP hx with hmem | hv
      · exact inv x hmem
      · rw [hv]
        have hw := inv (b.bidderId, participant) (lookupP_mem hlookw)
        have hw2 : participant.budgetRemaining =
            s.auction.budgetPerPlayer - rosterSum participant.roster := hw
        show participant.budgetRemaining - b.amount =
          s.auction.budgetPerPlayer -
            rosterSum (participant.roster ++ [⟨cp.name, cp.categoryLabel, b.amount⟩])
        rw [rosterSum_append]
        show participant.budgetRemaining - b.amount =
          s.auction.budgetPerPlayer - (rosterSum participant.roster + b.amount)
        omega

theorem bi_pause {s : AuctionState} (now : Int) (inv : BudgetInvariant s) :
    BudgetInvariant (pauseAuction s now) :=
  budget_transfer (pauseAuction_fields s now).1 (pauseAuction_fields s now).2.2.2.1 inv

theorem bi_resume {s : AuctionState} (now : Int) (inv : BudgetInvariant s) :
    BudgetInvariant (resumeAuction s now) :=
  budget_transfer (resumeAuction_fields s now).1 (resumeAuction_fields s now).2.2.2.1 inv

theorem bi_team {s s2 : AuctionState} {cid sport : String} {fr : List TaggedRosterEntry}
    {fc fl : Option String}
    (h : submitTeam s cid fr sport fc fl = .ok s2) (inv : BudgetInvariant s) :
    BudgetInvariant s2 := by
  rcases submitTeam_ok h with ⟨p, hlook, hs2⟩
  rw [hs2]
  intro x hx
  exact budget_setP
    ({ p with
        hasSubmittedTeam := true
        finalRoster := some fr
        finalRosterSport := some sport
        finalRosterFormation :=
          if sport = "soccer" then
            some (fc.getD "custom", fl.getD (fc.getD "Custom formation"))
          else none })
    hlook rfl rfl inv x hx

theorem bi_openFin {s s2 : AuctionState}
    (h : openFinalizationPhase s = .ok s2) (inv : BudgetInvariant s) : BudgetInvariant s2 := by
  rcases openFinalizationPhase_ok h with ⟨_, hs2 | hs2⟩
  · rw [hs2]
    exact inv
  · exact budget_transfer (by rw [hs2]) (by rw [hs2]) inv

theorem bi_relist {s s2 : AuctionState} {pid : String} {now : Int}
    (h : relistUnsoldPlayer s pid now = .ok s2) (inv : BudgetInvariant s) :
    BudgetInvariant s2 := by
  rcases relistUnsoldPlayer_ok h with ⟨e, _, _, hs2⟩
  exact budget_transfer (by rw [hs2]) (by rw [hs2]) inv

theorem bi_ranking {s s2 : AuctionState} {cid : String} {ord : List String}
    (h : submitRanking s cid ord = .ok s2) (inv : BudgetInvariant s) : BudgetInvariant s2 := by
  rcases submitRanking_ok h with ⟨p, hlook, hs2⟩
  rw [hs2]
  intro x hx
  exact budget_setP
    ({ p with
        rankings := buildRankings s.auction.participantCount ord
        rankingSubmitted := true })
    hlook rfl rfl inv x hx

theorem bi_finResults {s : AuctionState} (inv : BudgetInvariant s) :
    BudgetInvariant (finalizeResults s) :=
  budget_transfer (finalizeResults_fields s).1 (finalizeResults_fields s).2.2.1 inv

/-- C1: budget conservation.  In every state reachable from auction creation
through the committed transactions of the machine (join, start, bid, skip
vote, finalize, pause, resume, team and ranking submission, finalization
gate, relist, results, mark-ranking), every participant satisfies
budgetRemaining = budgetPerPlayer - sum of roster prices; in particular the
invariant holds after every finalizeCurrentPlayer call, and no refund path
exists since every transaction preserves it. -/
theorem c1_budget_conservation (s : AuctionState) (h : Reachable s) : BudgetInvariant s := by
  induction h with
  | init input hc => exact bi_create hc
  | step hr hstep ih =>
    cases hstep with
    | join pw cid dn h2 => exact bi_join h2 ih
    | start now h2 => exact bi_start h2 ih
    | bid cid bn amount now h2 => exact bi_bid h2 ih
    | skipVote cid h2 =>
      rw [← h2]
      exact bi_skip cid ih
    | finalize fu now h2 => exact bi_finalize h2 ih
    | pause now h2 =>
      rw [← h2]
      exact bi_pause now ih
    | resume now h2 =>
      rw [← h2]
      exact bi_resume now ih
    | team cid fr sport fc fl h2 => exact bi_team h2 ih
    | openFin h2 => exact bi_openFin h2 ih
    | relist pid now h2 => exact bi_relist h2 ih
    | ranking cid ord h2 => exact bi_ranking h2 ih
    | finResults h2 =>
      rw [← h2]
      exact bi_finResults ih
    | markRanking h2 =>
      rw [← h2]
      exact budget_transfer rfl rfl ih

/-- C1 fixture: the creation input of the sample auction. -/
def c1Input : CreateAuctionInput :=
  { auctionName := "cup"
    adminName := "P1"
    clientId := "p1"
    maxParticipants := 2
    playersPerTeam := 1
    budgetPerPlayer := 100
    visibility := "public"
    password := "pw"
    categories := [{ id := "c1", label := "A", basePrice := 10, players := ["X"] }] }

/-- C1 fixtures: the trace create, join, start, bid, finalize. -/
def c1w0 : AuctionState :=
  match createAuctionState c1Input with
  | .ok s => s
  | .error _ => default

def c1w1 : AuctionState :=
  match joinAuction c1w0 "pw" "p2" "P2" with
  | .ok s => s
  | .error _ => default

def c1w2 : AuctionState :=
  match startAuction c1w1 0 with
  | .ok s => s
  | .error _ => default

def c1w3 : AuctionState :=
  match placeBidTrx c1w2 "p2" "P2" 20 0 with
  | .ok s => s
  | .error _ => default

def c1w4 : AuctionState :=
  match finalizeCurrentPlayer c1w3 false 0 with
  | .ok s => s
  | .error _ => default

/-- C1 witness: the end state of the concrete trace is reachable and the
budget invariant holds there (p2 paid 20 out of 100 for the one player). -/
theorem c1_witness : Reachable c1w4 ∧ BudgetInvariant c1w4 :=
  ⟨Reachable.step
      (Reachable.step
        (Reachable.step
          (Reachable.step (Reachable.init c1Input (by rfl)) (Step.join "pw" "p2" "P2" (by rfl)))
          (Step.start 0 (by rfl)))
        (Step.bid "p2" "P2" 20 0 (by rfl)))
      (Step.finalize false 0 (by rfl)),
   c1_budget_conservation c1w4
    (Reachable.step
      (Reachable.step
        (Reachable.step
          (Reachable.step (Reachable.init c1Input (by rfl)) (Step.join "pw" "p2" "P2" (by rfl)))
          (Step.start 0 (by rfl)))
        (Step.bid "p2" "P2" 20 0 (by rfl)))
      (Step.finalize false 0 (by rfl)))⟩

/-- C6 fixture: a reachable state with status results — create, join, start,
bid, finalize (queue exhausts, ended), mark ranking, finalize results. -/
def c6ResState : AuctionState := finalizeResults (markAuctionAsRanking c1w4)

/-- C6 counterexample: the claim that results is terminal is false on the
code.  The state c6ResState is reachable and has status results, yet
markAuctionAsRanking — which has no status precondition — moves its status
back to ranking. -/
theorem c6_counterexample :
    Reachable c6ResState
    ∧ c6ResState.auction.status = .results
    ∧ (markAuctionAsRanking c6ResState).auction.status = .ranking
    ∧ AuctionStatus.ranking ≠ AuctionStatus.results := by
  have hc1 : Reachable c1w4 :=
    Reachable.step
      (Reachable.step
        (Reachable.step
          (Reachable.step (Reachable.init c1Input (by rfl)) (Step.join "pw" "p2" "P2" (by rfl)))
          (Step.start 0 (by rfl)))
        (Step.bid "p2" "P2" 20 0 (by rfl)))
      (Step.finalize false 0 (by rfl))
  refine ⟨?_, by decide, by decide, by decide⟩
  exact Reachable.step (Reachable.step hc1 (Step.markRanking rfl)) (Step.finResults rfl)

/-- C6 amended: the lifecycle is forward along lobby, live, ended, ranking,
results for the guarded operations, but results is not terminal: from a
results-status state every operation except markAuctionAsRanking and
relistUnsoldPlayer preserves the status (or fails), while
markAuctionAsRanking unconditionally sets status ranking and
relistUnsoldPlayer sets status live whenever an unsold ledger entry exists. -/
theorem c6_results_not_terminal (s : AuctionState) (h : s.auction.status = .results) :
    (∀ pw cid dn s2, joinAuction s pw cid dn = .ok s2 → s2.auction.status = .results)
    ∧ (∀ now s2, ¬startAuction s now = .ok s2)
    ∧ (∀ cid bn amount now s2, ¬placeBidTrx s cid bn amount now = .ok s2)
    ∧ (∀ cid, (skipTrx s cid).1 = s)
    ∧ (∀ fu now, finalizeCurrentPlayer s fu now = .ok s)
    ∧ (∀ now, pauseAuction s now = s)
    ∧ (∀ now, resumeAuction s now = s)
    ∧ (∀ cid fr sport fc fl s2, submitTeam s cid fr sport fc fl = .ok s2 →
        s2.auction.status = .results)
    ∧ (∀ s2, ¬openFinalizationPhase s = .ok s2)
    ∧ (∀ cid ord s2, submitRanking s cid ord = .ok s2 → s2.auction.status = .results)
    ∧ finalizeResults s = s
    ∧ (markAuctionAsRanking s).auction.status = .ranking
    ∧ (∀ pid now s2, relistUnsoldPlayer s pid now = .ok s2 → s2.auction.status = .live) := by
  refine ⟨?_, ?_, ?_, ?_, ?_, ?_, ?_, ?_, ?_, ?_, ?_, rfl, ?_⟩
  · intro pw cid dn s2 h2
    rcases joinAuction_ok h2 with ⟨p, _, hs2⟩ | ⟨_, ha, _⟩
    · rw [hs2]
      exact h
    · rw [ha]
      exact h
  · intro now s2 h2
    rcases startAuction_ok h2 with ⟨hl, _⟩
    rw [h] at hl
    exact absurd hl (by simp)
  · intro cid bn amount now s2 h2
    rcases placeBidTrx_ok h2 with ⟨hl, _⟩
    rw [h] at hl
    exact absurd hl (by simp)
  · intro cid
    simp only [skipTrx]
    rw [if_pos (Or.inl (by rw [h]; simp))]
  · intro fu now
    simp only [finalizeCurrentPlayer]
    rw [if_pos (by rw [h]; simp)]
  · intro now
    simp only [pauseAuction]
    rw [if_pos (Or.inl (by rw [h]; simp))]
  · intro now
    simp only [resumeAuction]
    rw [if_pos (Or.inl (by rw [h]; simp))]
  · intro cid fr sport fc fl s2 h2
    rcases submitTeam_ok h2 with ⟨p, _, hs2⟩
    rw [hs2]
    exact h
  · intro s2 h2
    rcases openFinalizationPhase_ok h2 with ⟨hl, _⟩
    rw [h] at hl
    exact absurd hl (by simp)
  · intro cid ord s2 h2
    rcases submitRanking_ok h2 with ⟨p, _, hs2⟩
    rw [hs2]
    exact h
  · simp only [finalizeResults]
    rw [if_pos (by rw [h]; simp)]
  · intro pid now s2 h2
    rcases relistUnsoldPlayer_ok h2 with ⟨e, _, _, hs2⟩
    rw [hs2]

/-- C6 witness: the amended theorem at the concrete reachable results
state. -/
theorem c6_witness :
    (∀ pw cid dn s2, joinAuction c6ResState pw cid dn = .ok s2 →
        s2.auction.status = .results)
    ∧ (∀ now s2, ¬startAuction c6ResState now = .ok s2)
    ∧ (∀ cid bn amount now s2, ¬placeBidTrx c6ResState cid bn amount now = .ok s2)
    ∧ (∀ cid, (skipTrx c6ResState cid).1 = c6ResState)
    ∧ (∀ fu now, finalizeCurrentPlayer c6ResState fu now = .ok c6ResState)
    ∧ (∀ now, pauseAuction c6ResState now = c6ResState)
    ∧ (∀ now, resumeAuction c6ResState now = c6ResState)
    ∧ (∀ cid fr sport fc fl s2, submitTeam c6ResState cid fr sport fc fl = .ok s2 →
        s2.auction.status = .results)
    ∧ (∀ s2, ¬openFinalizationPhase c6ResState = .ok s2)
    ∧ (∀ cid ord s2, submitRanking c6ResState cid ord = .ok s2 →
        s2.auction.status = .results)
    ∧ finalizeResults c6ResState = c6ResState
    ∧ (markAuctionAsRanking c6ResState).auction.status = .ranking
    ∧ (∀ pid now s2, relistUnsoldPlayer c6ResState pid now = .ok s2 →
        s2.auction.status = .live) :=
  c6_results_not_terminal c6ResState (by decide)
